import Mathlib

/-!
# Conference boss challenge: submission, scoring and leaderboard handlers

A shallow embedding of the three Lambda handlers of the repository
(`backend/functions/submit`, `backend/functions/process`,
`backend/functions/leaderboard`) together with the properties of the
specification that are settled against them.

Modelling conventions.
* A JavaScript string is the list of its UTF-16 code units, so that `.length`
  is `List.length` and `trim` removes exactly the ECMAScript white space and
  line terminator code units.
* A JavaScript number is `NaN`, an infinity, or a finite value; a finite
  double is represented by the rational number it denotes, which makes every
  comparison used by the handlers exact.
* External calls (DynamoDB, S3, OpenAI, the clock, `randomUUID`) are supplied
  as explicit outcomes in an environment record; the DynamoDB table is an
  explicit list of items that is threaded through the handlers.
-/

namespace ConferenceBoss

/-! ## JavaScript values -/

/-- A JavaScript string: its UTF-16 code units. -/
abbrev JSString := List Nat

/-- The code units of an ASCII literal of the source. -/
def lit (s : String) : JSString := s.toList.map Char.toNat

/-- A JavaScript number: `NaN`, the infinities, or a finite value. -/
inductive JSNum where
  | nan : JSNum
  | posInf : JSNum
  | negInf : JSNum
  | fin (q : ℚ) : JSNum
deriving DecidableEq

namespace JSNum

/-- The relation `a < b` of JavaScript numbers (false as soon as one is `NaN`). -/
def lt : JSNum → JSNum → Bool
  | nan, _ => false
  | _, nan => false
  | posInf, _ => false
  | _, negInf => false
  | negInf, _ => true
  | fin _, posInf => true
  | fin a, fin b => decide (a < b)

/-- The relation `a <= b` of JavaScript numbers (false as soon as one is `NaN`). -/
def le : JSNum → JSNum → Bool
  | nan, _ => false
  | _, nan => false
  | negInf, _ => true
  | _, posInf => true
  | posInf, _ => false
  | fin _, negInf => false
  | fin a, fin b => decide (a ≤ b)

/-- The relation `a > b`. -/
def gt (a b : JSNum) : Bool := lt b a

/-- The relation `a >= b`. -/
def ge (a b : JSNum) : Bool := le b a

/-- Truthiness of a number: everything but `0`, `-0` and `NaN`. -/
def truthy : JSNum → Bool
  | nan => false
  | fin q => decide (q ≠ 0)
  | _ => true

/-- The function `Math.min` on two arguments. -/
def min : JSNum → JSNum → JSNum
  | nan, _ => nan
  | _, nan => nan
  | negInf, _ => negInf
  | _, negInf => negInf
  | posInf, b => b
  | a, posInf => a
  | fin a, fin b => if a ≤ b then fin a else fin b

/-- The function `Math.max` on two arguments. -/
def max : JSNum → JSNum → JSNum
  | nan, _ => nan
  | _, nan => nan
  | posInf, _ => posInf
  | _, posInf => posInf
  | negInf, b => b
  | a, negInf => a
  | fin a, fin b => if a ≤ b then fin b else fin a

/-- The difference `a - b` of JavaScript numbers. -/
def sub : JSNum → JSNum → JSNum
  | nan, _ => nan
  | _, nan => nan
  | posInf, posInf => nan
  | negInf, negInf => nan
  | posInf, _ => posInf
  | negInf, _ => negInf
  | fin _, posInf => negInf
  | fin _, negInf => posInf
  | fin a, fin b => fin (a - b)

/-- The sum `a + b` of JavaScript numbers. -/
def add : JSNum → JSNum → JSNum
  | nan, _ => nan
  | _, nan => nan
  | posInf, negInf => nan
  | negInf, posInf => nan
  | posInf, _ => posInf
  | negInf, _ => negInf
  | fin _, posInf => posInf
  | fin _, negInf => negInf
  | fin a, fin b => fin (a + b)

/-- The quotient `a / n` by a positive array length. -/
def divLength : JSNum → Nat → JSNum
  | fin a, n => fin (a / (n : ℚ))
  | a, _ => a

/-- The function `Math.round`: the nearest integer, halves towards `+∞`. -/
def round : JSNum → JSNum
  | fin a => fin (⌊a + 1 / 2⌋ : ℤ)
  | a => a

end JSNum

/-- A JavaScript value as it can come out of `JSON.parse` or a destructured
request body; `obj` stands for any object or array. -/
inductive JSVal where
  | undefined : JSVal
  | null : JSVal
  | bool (b : Bool) : JSVal
  | num (n : JSNum) : JSVal
  | str (s : JSString) : JSVal
  | obj : JSVal
deriving DecidableEq

namespace JSVal

/-- Truthiness (`!!v`). -/
def truthy : JSVal → Bool
  | undefined => false
  | null => false
  | bool b => b
  | num n => n.truthy
  | str s => !s.isEmpty
  | obj => true

end JSVal

/-! ## Strings -/

/-- White space and line terminator code units, the ones `trim` strips. -/
def isWhiteSpace (c : Nat) : Bool :=
  c == 0x09 || c == 0x0A || c == 0x0B || c == 0x0C || c == 0x0D || c == 0x20 ||
  c == 0xA0 || c == 0x1680 || (0x2000 ≤ c && c ≤ 0x200A) || c == 0x2028 ||
  c == 0x2029 || c == 0x202F || c == 0x205F || c == 0x3000 || c == 0xFEFF

/-- The method `String.prototype.trim`. -/
def trim (s : JSString) : JSString :=
  ((s.dropWhile isWhiteSpace).reverse.dropWhile isWhiteSpace).reverse

/-- The method `String.prototype.toLowerCase` on one code unit. Only `A`-`Z`
are mapped: no other character lowercases to a character that occurs in one of
the allowed audio formats, so membership in that list is decided exactly. -/
def toLowerUnit (c : Nat) : Nat :=
  if 65 ≤ c ∧ c ≤ 90 then c + 32 else c

/-- The method `String.prototype.toLowerCase`. -/
def toLowerCase (s : JSString) : JSString := s.map toLowerUnit

/-- The template-literal rendering of a possibly absent string attribute. -/
def tmpl : Option JSString → JSString
  | some s => s
  | none => lit "undefined"

/-- An exception value; only its `message` is observed by the handlers. -/
structure JSError where
  message : JSString
deriving DecidableEq

deriving instance DecidableEq for Except

/-! ## The submission table -/

/-- The values written to `processing_status`. -/
inductive Status where
  | pending : Status
  | processing : Status
  | completed : Status
  | failed : Status
deriving DecidableEq

/-- An item of the DynamoDB table. The composite key (`response_id`,
`timestamp`) is always there; every other attribute may be absent. -/
structure Record where
  response_id : JSString
  timestamp : Nat
  created_at : Option JSString := none
  participant_name : Option JSString := none
  session_date : Option JSString := none
  processing_status : Option Status := none
  audio_format : Option JSString := none
  audio_size : Option JSNum := none
  ttl : Option Nat := none
  updated_at : Option JSString := none
  error_message : Option JSString := none
  transcription : Option JSString := none
  score : Option JSNum := none
  roast : Option JSVal := none
  audio_file_url : Option JSString := none
  prize_eligible : Option Bool := none
  completed_at : Option JSString := none
deriving DecidableEq

/-- The table: its items, in storage order. -/
abbrev Store := List Record

/-- The item has the given composite key. -/
def hasKey (responseId : JSString) (timestamp : Nat) (r : Record) : Bool :=
  decide (r.response_id = responseId) && decide (r.timestamp = timestamp)

namespace Store

/-- The DynamoDB `GetItem` by composite key. -/
def getItem (s : Store) (responseId : JSString) (timestamp : Nat) : Option Record :=
  s.find? (hasKey responseId timestamp)

/-- The DynamoDB `PutItem`: replaces the item with the same key, or adds the item. -/
def putItem (s : Store) (item : Record) : Store :=
  if s.any (hasKey item.response_id item.timestamp) then
    s.map (fun r => if hasKey item.response_id item.timestamp r then item else r)
  else s ++ [item]

/-- The DynamoDB `UpdateItem` with a `SET` expression: applies the assignments
to the item with the given key, or to a new item holding only the key when the
table has none. -/
def updateItem (s : Store) (responseId : JSString) (timestamp : Nat)
    (set : Record → Record) : Store :=
  if s.any (hasKey responseId timestamp) then
    s.map (fun r => if hasKey responseId timestamp r then set r else r)
  else s ++ [set { response_id := responseId, timestamp := timestamp }]

end Store

/-! ## Submit handler -/

namespace Submit

def MAX_NAME_LENGTH : Nat := 50
def MIN_NAME_LENGTH : Nat := 1
def MAX_AUDIO_SIZE : ℚ := 5 * 1024 * 1024
def ALLOWED_AUDIO_FORMATS : List JSString :=
  [lit "mp4", lit "webm", lit "wav", lit "m4a", lit "aac"]
def PRESIGNED_URL_EXPIRATION : Nat := 300

/-- The result object of `validateInput`. -/
structure Validation where
  valid : Bool
  errors : List JSString
deriving DecidableEq

/-- The name block of `validateInput`: the `if / else if / else if` chain that
pushes onto `errors`. Template literals are written with their constants
substituted. -/
def validateNameStep (errors : List JSString) (name : JSVal) : List JSString :=
  match name with
  | .str s =>
    if !(JSVal.str s).truthy then
      errors ++ [lit "Name is required and must be a string"]
    else if (trim s).length < MIN_NAME_LENGTH then
      errors ++ [lit "Name must be at least 1 character"]
    else if (trim s).length > MAX_NAME_LENGTH then
      errors ++ [lit "Name must not exceed 50 characters"]
    else errors
  | _ => errors ++ [lit "Name is required and must be a string"]

/-- The audio format block of `validateInput`. -/
def validateFormatStep (errors : List JSString) (audioFormat : JSVal) : List JSString :=
  match audioFormat with
  | .str s =>
    if !(JSVal.str s).truthy then
      errors ++ [lit "Audio format is required"]
    else if !(ALLOWED_AUDIO_FORMATS.contains (toLowerCase s)) then
      errors ++ [lit "Audio format must be one of: mp4, webm, wav, m4a, aac"]
    else errors
  | _ => errors ++ [lit "Audio format is required"]

/-- The audio size block of `validateInput`. -/
def validateSizeStep (errors : List JSString) (audioSize : JSVal) : List JSString :=
  match audioSize with
  | .num n =>
    if !n.truthy then
      errors ++ [lit "Audio size is required and must be a number"]
    else if n.le (.fin 0) then
      errors ++ [lit "Audio size must be greater than 0"]
    else if n.gt (.fin MAX_AUDIO_SIZE) then
      errors ++ [lit "Audio size must not exceed 5MB"]
    else errors
  | _ => errors ++ [lit "Audio size is required and must be a number"]

/-- The function `validateInput` of the submit handler. -/
def validateInput (name audioFormat audioSize : JSVal) : Validation :=
  let errors : List JSString := []
  let errors := validateNameStep errors name
  let errors := validateFormatStep errors audioFormat
  let errors := validateSizeStep errors audioSize
  { valid := errors.length == 0, errors := errors }

/-! ### The three rules, as the specification words them -/

/-- The name rule: a non-empty string whose trimmed length is in `[1, 50]`. -/
def NameRule (name : JSVal) : Prop :=
  ∃ s, name = .str s ∧ s ≠ [] ∧ 1 ≤ (trim s).length ∧ (trim s).length ≤ 50

/-- The format rule: a string that equals, ignoring letter case, one of
`mp4`, `webm`, `wav`, `m4a`, `aac`. -/
def FormatRule (audioFormat : JSVal) : Prop :=
  ∃ s, audioFormat = .str s ∧
    ∃ a ∈ [lit "mp4", lit "webm", lit "wav", lit "m4a", lit "aac"],
      toLowerCase s = toLowerCase a

/-- The size rule: a number that is `> 0` and `<= 5242880`. -/
def SizeRule (audioSize : JSVal) : Prop :=
  ∃ n, audioSize = .num n ∧ JSNum.lt (.fin 0) n = true ∧ JSNum.le n (.fin 5242880) = true

/-- The violation strings of the name rule. -/
def nameViolations : List JSString :=
  [lit "Name is required and must be a string", lit "Name must be at least 1 character",
   lit "Name must not exceed 50 characters"]

/-- The violation strings of the format rule. -/
def formatViolations : List JSString :=
  [lit "Audio format is required", lit "Audio format must be one of: mp4, webm, wav, m4a, aac"]

/-- The violation strings of the size rule. -/
def sizeViolations : List JSString :=
  [lit "Audio size is required and must be a number", lit "Audio size must be greater than 0",
   lit "Audio size must not exceed 5MB"]

/-- The request of the submit handler: a body on which `JSON.parse` or the
destructuring throws, or the three destructured fields of the parsed body. -/
inductive Event where
  | badBody (e : JSError) : Event
  | body (name audioFormat audioSize : JSVal) : Event

/-- Outcomes of the external calls of one submit request. A failing DynamoDB
write leaves the table unchanged. -/
structure Env where
  /-- Result of `randomUUID()`. -/
  randomUUID : JSString
  /-- Result of `Date.now()` for `timestamp`. -/
  now : Nat
  /-- Clock reading of `new Date()` for `sessionDate`. -/
  nowDate : Nat
  /-- Result of `Date.now()` for `ttl`. -/
  nowTtl : Nat
  /-- The method `toISOString` of the date with the given clock reading. -/
  toISOString : Nat → JSString
  /-- Exception of the `PutCommand`, if it fails. -/
  putFault : Option JSError
  /-- Outcome of `getSignedUrl` for the key and content type. -/
  getSignedUrl : JSString → JSString → Except JSError JSString

/-- The responses of the submit handler (`createResponse` with its body). -/
inductive Response where
  | ok (responseId uploadUrl : JSString) (expiresIn : Nat) (s3Key : JSString) : Response
  | invalid (details : List JSString) : Response
  | error (message : JSString) : Response
deriving DecidableEq

/-- The HTTP status code of a response. -/
def Response.statusCode : Response → Nat
  | .ok .. => 200
  | .invalid _ => 400
  | .error _ => 500

/-- The function `getContentType`. -/
def getContentType (format : JSString) : JSString :=
  let f := toLowerCase format
  if f = lit "mp4" then lit "audio/mp4"
  else if f = lit "m4a" then lit "audio/mp4"
  else if f = lit "webm" then lit "audio/webm"
  else if f = lit "wav" then lit "audio/wav"
  else if f = lit "aac" then lit "audio/aac"
  else lit "application/octet-stream"

/-- The function `generatePresignedUrl`. -/
def generatePresignedUrl (env : Env) (s3Key audioFormat : JSString) : Except JSError JSString :=
  env.getSignedUrl s3Key (getContentType audioFormat)

/-- The part of the string before the first `T` (`split('T')[0]`). -/
def beforeT (s : JSString) : JSString := s.takeWhile (fun c => c != 84)

/-- The record that the handler builds for an accepted submission. -/
def dbRecord (env : Env) (name audioFormat : JSString) (audioSize : JSNum) : Record :=
  { response_id := env.randomUUID
    timestamp := env.now
    created_at := some (env.toISOString env.now)
    participant_name := some (trim name)
    session_date := some (beforeT (env.toISOString env.nowDate))
    processing_status := some .pending
    audio_format := some audioFormat
    audio_size := some audioSize
    ttl := some (env.nowTtl / 1000 + 90 * 24 * 60 * 60) }

/-- The submit Lambda handler: the new table and the response. An exception
anywhere in the `try` block gives the 500 response with its message. -/
def handler (env : Env) (event : Event) (s : Store) : Store × Response :=
  match event with
  | .badBody e => (s, .error e.message)
  | .body name audioFormat audioSize =>
    let validation := validateInput name audioFormat audioSize
    if !validation.valid then (s, .invalid validation.errors)
    else
      match name, audioFormat, audioSize with
      | .str name, .str audioFormat, .num audioSize =>
        let responseId := env.randomUUID
        let sessionDate := beforeT (env.toISOString env.nowDate)
        match env.putFault with
        | some e => (s, .error e.message)
        | none =>
          let s1 := s.putItem (dbRecord env name audioFormat audioSize)
          let s3Key := sessionDate ++ lit "/" ++ responseId ++ lit "." ++ audioFormat
          match generatePresignedUrl env s3Key audioFormat with
          | .error e => (s1, .error e.message)
          | .ok uploadUrl => (s1, .ok responseId uploadUrl PRESIGNED_URL_EXPIRATION s3Key)
      | _, _, _ => (s, .error (lit "name.trim is not a function"))

end Submit

/-! ## Process handler -/

namespace Process

/-- What one run of `retryWithBackoff` does, in order: a call of `fn` (numbered
from 0) or a wait of the given number of milliseconds. -/
inductive RetryEvent where
  | call (i : Nat) : RetryEvent
  | wait (ms : Nat) : RetryEvent
deriving DecidableEq

/-- The result of one run of `retryWithBackoff`: the value returned
(`none` is `undefined`, when the loop body never runs) or the exception thrown,
and the trace of calls and waits. -/
structure RetryRun (α : Type) where
  outcome : Except JSError (Option α)
  trace : List RetryEvent

/-- The loop of `retryWithBackoff` from iteration `i` on, with
`remaining = maxRetries - i` iterations left (the loop test `i < maxRetries` is
`remaining > 0`). The operation `fn` is given by the outcome of each of its
successive calls. -/
def retryLoop {α : Type} (fn : Nat → Except JSError α) (maxRetries initialDelay : Nat) :
    Nat → Nat → RetryRun α
  | 0, _ => { outcome := .ok none, trace := [] }
  | remaining + 1, i =>
    match fn i with
    | .ok v => { outcome := .ok (some v), trace := [.call i] }
    | .error error =>
      if i = maxRetries - 1 then { outcome := .error error, trace := [.call i] }
      else
        let delay := initialDelay * 2 ^ i
        let rest := retryLoop fn maxRetries initialDelay remaining (i + 1)
        { outcome := rest.outcome, trace := .call i :: .wait delay :: rest.trace }

/-- The function `retryWithBackoff`, with its default arguments. -/
def retryWithBackoff {α : Type} (fn : Nat → Except JSError α) (maxRetries : Nat := 3)
    (initialDelay : Nat := 1000) : RetryRun α :=
  retryLoop fn maxRetries initialDelay maxRetries 0

/-- The object returned by `gradeResponse`. -/
structure Grading where
  score : JSNum
  roast : JSVal
deriving DecidableEq

/-- The body of the callback of `gradeResponse` after the chat completion and
`JSON.parse`: `raw` is the exception of either, or `result.score` and
`result.roast`. -/
def gradeAttempt (raw : Except JSError (JSVal × JSVal)) : Except JSError Grading :=
  match raw with
  | .error e => .error e
  | .ok (score, roast) =>
    match score with
    | .num n =>
      if !roast.truthy then .error ⟨lit "Invalid grading response format"⟩
      else .ok { score := JSNum.max (.fin 0) (JSNum.min (.fin 100) n), roast := roast }
    | _ => .error ⟨lit "Invalid grading response format"⟩

/-- The request of the process handler: a body on which `JSON.parse` or the
destructuring throws, or the `responseId` string of the parsed body (`none`
when absent). -/
inductive Event where
  | badBody (e : JSError) : Event
  | body (responseId : Option JSString) : Event

/-- Outcomes of the external calls of one pipeline run. A failing DynamoDB
write leaves the table unchanged. -/
structure Env where
  /-- Exception of the `GetCommand` of the first `getRecord`, if it fails. -/
  getFault : Option JSError
  /-- Exception of the `UpdateCommand` that claims the record, if it fails. -/
  claimFault : Option JSError
  /-- Result of `new Date().toISOString()` in the claiming `updateStatus`. -/
  claimTime : JSString
  /-- Outcome of `downloadAudioFromS3` for the key: the audio bytes. -/
  downloadAudioFromS3 : JSString → Except JSError (List Nat)
  /-- Outcome of the successive transcription calls: `transcription.text`. -/
  transcribe : Nat → Except JSError JSString
  /-- Outcome of the successive chat completions followed by `JSON.parse`:
  `result.score` and `result.roast`. -/
  complete : Nat → Except JSError (JSVal × JSVal)
  /-- Exception of the `UpdateCommand` of `updateResults`, if it fails. -/
  resultFault : Option JSError
  /-- Result of `new Date().toISOString()` in `updateResults`. -/
  completedTime : JSString
  /-- Exception of the `GetCommand` of the `getRecord` in the `catch` block. -/
  refetchFault : Option JSError
  /-- Exception of the `UpdateCommand` that marks the record failed. -/
  failFault : Option JSError
  /-- Result of `new Date().toISOString()` in the failing `updateStatus`. -/
  failTime : JSString

/-- The responses of the process handler (`createResponse` with its body). -/
inductive Response where
  | ok (responseId transcription : JSString) (score : JSNum) (roast : JSVal)
      (prizeEligible : Bool) : Response
  | invalid (details : List JSString) : Response
  | notFound : Response
  | failed (message : JSString) : Response
deriving DecidableEq

/-- The HTTP status code of a response. -/
def Response.statusCode : Response → Nat
  | .ok .. => 200
  | .invalid _ => 400
  | .notFound => 404
  | .failed _ => 500

/-- The function `getRecord`: a `GetCommand` whose key has `timestamp: 0`. -/
def getRecord (fault : Option JSError) (s : Store) (responseId : JSString) :
    Except JSError (Option Record) :=
  match fault with
  | some e => .error e
  | none => .ok (s.getItem responseId 0)

/-- The `SET` assignments of `updateStatus`. -/
def statusAssignments (status : Status) (updated : JSString) (errorMessage : Option JSString)
    (r : Record) : Record :=
  let r := { r with processing_status := some status, updated_at := some updated }
  match errorMessage with
  | some m => if (JSVal.str m).truthy then { r with error_message := some m } else r
  | none => r

/-- The function `updateStatus`. -/
def updateStatus (fault : Option JSError) (updated : JSString) (s : Store)
    (responseId : JSString) (timestamp : Nat) (status : Status)
    (errorMessage : Option JSString := none) : Except JSError Store :=
  match fault with
  | some e => .error e
  | none => .ok (s.updateItem responseId timestamp (statusAssignments status updated errorMessage))

/-- The `SET` assignments of `updateResults`. -/
def resultAssignments (transcription : JSString) (score : JSNum) (roast : JSVal)
    (audioFileUrl : JSString) (prizeEligible : Bool) (completed : JSString) (r : Record) :
    Record :=
  { r with
    transcription := some transcription
    score := some score
    roast := some roast
    audio_file_url := some audioFileUrl
    prize_eligible := some prizeEligible
    processing_status := some .completed
    completed_at := some completed }

/-- The function `updateResults`. -/
def updateResults (fault : Option JSError) (completed : JSString) (s : Store)
    (responseId : JSString) (timestamp : Nat) (transcription : JSString) (score : JSNum)
    (roast : JSVal) (audioFileUrl : JSString) (prizeEligible : Bool) : Except JSError Store :=
  match fault with
  | some e => .error e
  | none =>
    .ok (s.updateItem responseId timestamp
      (resultAssignments transcription score roast audioFileUrl prizeEligible completed))

/-- The function `transcribeAudio`. -/
def transcribeAudio (env : Env) : RetryRun JSString :=
  retryWithBackoff env.transcribe

/-- The function `gradeResponse`. -/
def gradeResponse (env : Env) : RetryRun Grading :=
  retryWithBackoff (fun i => gradeAttempt (env.complete i))

/-- The `try` block of the process handler: the table at the point where the
block ends, and either the response returned or the exception thrown. With the
default `maxRetries = 3` neither retry run returns `undefined`; those two
branches stand for the `TypeError` that the first use of the value would be. -/
def handlerTry (env : Env) (event : Event) (s : Store) : Store × Except JSError Response :=
  match event with
  | .badBody e => (s, .error e)
  | .body none => (s, .ok (.invalid [lit "responseId is required"]))
  | .body (some responseId) =>
    if !(JSVal.str responseId).truthy then (s, .ok (.invalid [lit "responseId is required"]))
    else
      match getRecord env.getFault s responseId with
      | .error e => (s, .error e)
      | .ok none => (s, .ok .notFound)
      | .ok (some record) =>
        match updateStatus env.claimFault env.claimTime s responseId record.timestamp
            .processing with
        | .error e => (s, .error e)
        | .ok s1 =>
          let s3Key := tmpl record.session_date ++ lit "/" ++ responseId ++ lit "." ++
            tmpl record.audio_format
          match env.downloadAudioFromS3 s3Key with
          | .error e => (s1, .error e)
          | .ok _ =>
            match (transcribeAudio env).outcome with
            | .error e => (s1, .error e)
            | .ok none => (s1, .error ⟨lit "transcription is undefined"⟩)
            | .ok (some transcription) =>
              match (gradeResponse env).outcome with
              | .error e => (s1, .error e)
              | .ok none => (s1, .error ⟨lit "grading is undefined"⟩)
              | .ok (some grading) =>
                let prizeEligible := grading.score.ge (.fin 80)
                match updateResults env.resultFault env.completedTime s1 responseId
                    record.timestamp transcription grading.score grading.roast s3Key
                    prizeEligible with
                | .error e => (s1, .error e)
                | .ok s2 =>
                  (s2, .ok (.ok responseId transcription grading.score grading.roast
                    prizeEligible))

/-- The inner `try` of the `catch` block: the best-effort write of the failed
status; any exception in it is swallowed. -/
def markFailed (env : Env) (event : Event) (s : Store) (error : JSError) : Store :=
  match event with
  | .badBody _ => s
  | .body none => s
  | .body (some responseId) =>
    if !(JSVal.str responseId).truthy then s
    else
      match getRecord env.refetchFault s responseId with
      | .error _ => s
      | .ok none => s
      | .ok (some record) =>
        match updateStatus env.failFault env.failTime s responseId record.timestamp .failed
            (some error.message) with
        | .error _ => s
        | .ok s1 => s1

/-- The process Lambda handler: the new table and the response. -/
def handler (env : Env) (event : Event) (s : Store) : Store × Response :=
  match handlerTry env event s with
  | (s1, .ok response) => (s1, response)
  | (s1, .error error) => (markFailed env event s1 error, .failed error.message)

/-- The indices of the calls of `fn` in a trace, in order. -/
def callsOf : List RetryEvent → List Nat
  | [] => []
  | .call i :: t => i :: callsOf t
  | .wait _ :: t => callsOf t

/-- The waits of a trace, in order, in milliseconds. -/
def waitsOf : List RetryEvent → List Nat
  | [] => []
  | .call _ :: t => waitsOf t
  | .wait ms :: t => ms :: waitsOf t

/-- The trace that ends with call `k`, every earlier call being followed by
its wait of `1000 * 2 ^ i` milliseconds. -/
def traceUpTo (k : Nat) : List RetryEvent :=
  ((List.range k).map (fun i => [RetryEvent.call i, RetryEvent.wait (1000 * 2 ^ i)])).flatten ++
    [RetryEvent.call k]

/-- The call `i` of the operation fails. -/
def Fails {α : Type} (fn : Nat → Except JSError α) (i : Nat) : Prop :=
  ∃ e, fn i = .error e

/-- An operation that always fails, with the call number as its message. -/
def alwaysFails : Nat → Except JSError JSString :=
  fun i => .error ⟨[48 + i]⟩

/-- An operation that fails once and then succeeds. -/
def failsOnce : Nat → Except JSError JSString :=
  fun i => if i = 0 then .error ⟨lit "timeout"⟩ else .ok (lit "hello")

/-- The clamp as the specification words it: `s` when `0 <= s <= 100`, `0`
when `s < 0`, `100` when `s > 100`. -/
def clampSpec (s : JSNum) : JSNum :=
  if s.lt (.fin 0) then .fin 0 else if s.gt (.fin 100) then .fin 100 else s

/-- Grading attempt `i` is the one that `gradeResponse` accepts: the earlier
attempts fail, and this one parses to a numeric score `raw` and a truthy
roast. -/
def Accepted (env : Env) (i : Nat) (raw : JSNum) (roast : JSVal) : Prop :=
  i < 3 ∧ (∀ j < i, Fails (fun k => gradeAttempt (env.complete k)) j) ∧
    env.complete i = .ok (.num raw, roast) ∧ roast.truthy = true

/-- The method `toISOString` on the two clock readings of the examples, 0 and
1736935200000. -/
def exampleISO (t : Nat) : JSString :=
  if t = 0 then lit "1970-01-01T00:00:00.000Z" else lit "2025-01-15T10:00:00.000Z"

/-- An environment of the submit handler in which every call succeeds and the
clock reads `now`. -/
def exampleSubmitEnv (now : Nat) : Submit.Env :=
  { randomUUID := lit "r1"
    now := now
    nowDate := now
    nowTtl := now
    toISOString := exampleISO
    putFault := none
    getSignedUrl := fun key _ => .ok (lit "https://bucket/" ++ key) }

/-- The table after one accepted submission, created at clock reading `now`. -/
def exampleStore (now : Nat) : Store :=
  (Submit.handler (exampleSubmitEnv now)
    (.body (.str (lit " Ada ")) (.str (lit "webm")) (.num (.fin 1000))) []).1

/-- An environment of the process handler in which every call succeeds and
the grading model answers with score `raw`; the clock reads one minute past
0. -/
def exampleEnv (raw : JSNum) : Env :=
  { getFault := none
    claimFault := none
    claimTime := lit "1970-01-01T00:01:00.000Z"
    downloadAudioFromS3 := fun _ => .ok [82, 73, 70, 70]
    transcribe := fun _ => .ok (lit "it was great")
    complete := fun _ => .ok (.num raw, .str (lit "nice"))
    resultFault := none
    completedTime := lit "1970-01-01T00:01:05.000Z"
    refetchFault := none
    failFault := none
    failTime := lit "1970-01-01T00:01:06.000Z" }

end Process

/-! ## Leaderboard handler -/

namespace Leaderboard

def DEFAULT_LIMIT : Nat := 100

/-- The number that `item.score` denotes in arithmetic (`undefined` is `NaN`). -/
def scoreOf (r : Record) : JSNum :=
  match r.score with
  | some n => n
  | none => .nan

/-- The comparator `(a, b) => b.score - a.score`. -/
def compareFn (a b : Record) : JSNum := JSNum.sub (scoreOf b) (scoreOf a)

/-- Insertion of `x`, which precedes every element of the list in the array,
into the sorted list: `x` moves behind `y` only when the comparator puts `x`
strictly after `y` (a `NaN` result counts as `0`). -/
def insertSorted {α : Type} (cmp : α → α → JSNum) (x : α) : List α → List α
  | [] => [x]
  | y :: ys => if (cmp x y).gt (.fin 0) then y :: insertSorted cmp x ys else x :: y :: ys

/-- The method `Array.prototype.sort` with a comparator: a stable sort. -/
def sort {α : Type} (cmp : α → α → JSNum) (l : List α) : List α :=
  l.foldr (insertSorted cmp) []

/-- The method `slice(0, stop)`; `none` is a `NaN` argument, which counts as 0,
and a negative argument counts from the end. -/
def slice0 {α : Type} (l : List α) (stop : Option Int) : List α :=
  match stop with
  | none => []
  | some k => if k < 0 then l.take (l.length - k.natAbs) else l.take k.toNat

/-- The code unit is a decimal digit. -/
def isDigit (c : Nat) : Bool := 48 ≤ c && c ≤ 57

/-- The function `parseInt(s, 10)`: leading white space, an optional sign, then
the longest run of decimal digits; `none` is `NaN`. -/
def parseInt (s : JSString) : Option Int :=
  let s := s.dropWhile isWhiteSpace
  let (negative, s) :=
    match s with
    | 45 :: t => (true, t)
    | 43 :: t => (false, t)
    | _ => (false, s)
  let digits := s.takeWhile isDigit
  if digits.isEmpty then none
  else
    let n : Nat := digits.foldl (fun acc d => acc * 10 + (d - 48)) 0
    some (if negative then -(n : Int) else (n : Int))

/-- An entry of the returned leaderboard. -/
structure Entry where
  rank : Nat
  name : Option JSString
  score : Option JSNum
  roast : JSVal
  timestamp : Option JSString
  prizeEligible : Bool
deriving DecidableEq

/-- The callback of `completed.map`: the entry of `item` at 0-based `index`. -/
def toEntry (index : Nat) (item : Record) : Entry :=
  { rank := index + 1
    name := item.participant_name
    score := item.score
    roast :=
      match item.roast with
      | some v => if v.truthy then v else .str []
      | none => .str []
    timestamp := item.created_at
    prizeEligible :=
      match item.prize_eligible with
      | some b => b
      | none => false }

/-- The body of the 200 response. -/
structure Body where
  leaderboard : List Entry
  top3 : List Entry
  totalParticipants : Nat
  averageScore : JSNum
  sessionDate : JSString
  lastUpdated : JSString
deriving DecidableEq

/-- The filter of the handler: `processing_status === 'completed'`. -/
def isCompleted (r : Record) : Bool := decide (r.processing_status = some .completed)

/-- The completed records, sorted: the array `completed` after `sort`. -/
def sortedCompleted (results : List Record) : List Record :=
  sort compareFn (results.filter isCompleted)

/-- The full ranked list: the array `leaderboard` before truncation. -/
def rankedList (results : List Record) : List Entry :=
  (sortedCompleted results).mapIdx toEntry

/-- The handler from the query results on: filter, sort, rank, statistics. -/
def buildBody (results : List Record) (limit : Option Int) (sessionDate lastUpdated : JSString) :
    Body :=
  let completed := sortedCompleted results
  let leaderboard := completed.mapIdx toEntry
  let totalParticipants := completed.length
  let averageScore :=
    if totalParticipants > 0 then
      JSNum.round
        (JSNum.divLength (completed.foldl (fun sum item => JSNum.add sum (scoreOf item)) (.fin 0))
          totalParticipants)
    else .fin 0
  let top3 := slice0 leaderboard (some 3)
  { leaderboard := slice0 leaderboard limit
    top3 := top3
    totalParticipants := totalParticipants
    averageScore := averageScore
    sessionDate := sessionDate
    lastUpdated := lastUpdated }

/-- The query string parameters of a leaderboard request. -/
structure Event where
  sessionDate : Option JSString
  limit : Option JSString

/-- Outcomes of the external calls of one leaderboard request. -/
structure Env where
  /-- Result of `getTodayDate()`. -/
  today : JSString
  /-- Result of `new Date().toISOString()` for `lastUpdated`. -/
  lastUpdated : JSString
  /-- Outcome of the `QueryCommand` on the index for the session date and the
  `Limit` (`none` is `NaN`): the `Items` returned, or the exception. -/
  query : JSString → Option Int → Except JSError (List Record)

/-- The responses of the leaderboard handler. -/
inductive Response where
  | ok (body : Body) : Response
  | error (message : JSString) : Response
deriving DecidableEq

/-- The function `queryLeaderboard`. -/
def queryLeaderboard (env : Env) (sessionDate : JSString) (limit : Option Int) :
    Except JSError (List Record) :=
  env.query sessionDate (limit.map (fun k => k * 2))


/-- Scores are in descending order along the list. -/
def Descending (l : List Record) : Prop :=
  l.Pairwise (fun a b => (scoreOf a).ge (scoreOf b) = true)

/-- A completed record with the given id and score, for the examples. -/
def completedRecord (id : String) (score : ℚ) : Record :=
  { response_id := lit id
    timestamp := 0
    participant_name := some (lit id)
    processing_status := some .completed
    transcription := some (lit "it was great")
    score := some (.fin score)
    roast := some (.str (lit "ok"))
    prize_eligible := some (decide (80 ≤ score)) }

/-- The specification's example: completed scores 70, 95, 70, 82 in store
order, between records that are not completed. -/
def exampleResults : List Record :=
  [ completedRecord "a" 70,
    { response_id := lit "p", timestamp := 0, processing_status := some .pending },
    completedRecord "b" 95,
    completedRecord "c" 70,
    { response_id := lit "f", timestamp := 0, processing_status := some .failed,
      error_message := some (lit "boom") },
    completedRecord "d" 82,
    { response_id := lit "q", timestamp := 0, processing_status := some .processing } ]

/-- The session date of a request: `queryParams.sessionDate || getTodayDate()`. -/
def sessionDateOf (env : Env) (event : Event) : JSString :=
  match event.sessionDate with
  | some d => if (JSVal.str d).truthy then d else env.today
  | none => env.today

/-- The limit of a request: `parseInt(queryParams.limit || DEFAULT_LIMIT, 10)`. -/
def limitOf (event : Event) : Option Int :=
  match event.limit with
  | some l => if (JSVal.str l).truthy then parseInt l else some (DEFAULT_LIMIT : Int)
  | none => some (DEFAULT_LIMIT : Int)

/-- The leaderboard Lambda handler. -/
def handler (env : Env) (event : Event) : Response :=
  let sessionDate := sessionDateOf env event
  let limit := limitOf event
  match queryLeaderboard env sessionDate limit with
  | .error e => .error e.message
  | .ok results => .ok (buildBody results limit sessionDate env.lastUpdated)

/-- An environment whose query returns the example records. -/
def exampleQueryEnv : Env :=
  { today := lit "2025-01-15"
    lastUpdated := lit "2025-01-15T10:00:00.000Z"
    query := fun _ _ => .ok exampleResults }

end Leaderboard

/-! ## The lifecycle of submissions -/

open Process

/-- The assignments leave the composite key of every item alone. -/
def KeepsKey (f : Record → Record) : Prop :=
  ∀ r, (f r).response_id = r.response_id ∧ (f r).timestamp = r.timestamp

/-- The table `s2` comes from the table `s` by successive writes of the
pipeline to the item with key (`id`, 0): a claim, a write of the failed status,
or a write of the results of an accepted grading response. -/
inductive Writes (env : Process.Env) (id : JSString) (s : Store) : Store → Prop where
  | none : Writes env id s s
  | status {s1 : Store} (st : Status) (updated : JSString) (m : Option JSString) :
      Writes env id s s1 → st = .processing ∨ st = .failed →
      Writes env id s (s1.updateItem id 0 (statusAssignments st updated m))
  | results {s1 : Store} (t : JSString) (i : Nat) (raw : JSNum) (ro : JSVal) (url : JSString)
      (completed : JSString) :
      Writes env id s s1 → Accepted env i raw ro →
      Writes env id s (s1.updateItem id 0
        (resultAssignments t (clampSpec raw) ro url ((clampSpec raw).ge (.fin 80)) completed))

/-- The status is terminal: `completed` or `failed`. -/
def Record.terminal (r : Record) : Bool :=
  decide (r.processing_status = some .completed) || decide (r.processing_status = some .failed)

/-- The four derived fields are all present. -/
def Record.hasResults (r : Record) : Bool :=
  r.transcription.isSome && r.score.isSome && r.roast.isSome && r.prize_eligible.isSome

/-- None of the four derived fields is present. -/
def Record.noResults (r : Record) : Bool :=
  r.transcription.isNone && r.score.isNone && r.roast.isNone && r.prize_eligible.isNone

/-- The grading responses of the environment are JSON: `JSON.parse` never
yields `NaN`. -/
def JsonScores (env : Process.Env) : Prop :=
  ∀ i score roast, env.complete i = .ok (score, roast) → score ≠ .num .nan

/-- One step of the system: a submission creation, for which `randomUUID`
returns an identifier that no record of the table has, or a run of the scoring
pipeline; the external calls of either have any outcome. -/
inductive Step : Store → Store → Prop where
  | create (env : Submit.Env) (event : Submit.Event) (s : Store)
      (fresh : ∀ r ∈ s, r.response_id ≠ env.randomUUID) :
      Step s (Submit.handler env event s).1
  | run (env : Process.Env) (event : Process.Event) (s : Store) (json : JsonScores env) :
      Step s (Process.handler env event s).1

/-- The tables that the steps reach from the empty table. -/
inductive Reachable : Store → Prop where
  | empty : Reachable []
  | step {s s2 : Store} : Reachable s → Step s s2 → Reachable s2

/-- The field invariant as the specification words it: the four derived
fields are present if and only if the status is `completed`, and `errorDetail`
is present only if the status is `failed`. -/
def FieldsInvariant (r : Record) : Prop :=
  (r.hasResults = true ↔ r.processing_status = some .completed) ∧
  (r.error_message.isSome = true → r.processing_status = some .failed)

/-- The table after the example submission, created at clock reading 0, has
been scored with 90. -/
def completedStore : Store :=
  (Process.handler (Process.exampleEnv (.fin 90)) (.body (some (lit "r1")))
    (Process.exampleStore 0)).1

/-- The record of `completedStore`: the example submission, claimed and then
scored with 90. -/
def scoredRecord : Record :=
  resultAssignments (lit "it was great") (.fin 90) (.str (lit "nice"))
    (lit "1970-01-01/r1.webm") true (lit "1970-01-01T00:01:05.000Z")
    (statusAssignments .processing (lit "1970-01-01T00:01:00.000Z") none
      (Submit.dbRecord (Process.exampleSubmitEnv 0) (lit " Ada ") (lit "webm") (.fin 1000)))

/-- A pipeline run in which the audio download fails with the given message;
`failFault` is the outcome of the write of the failed status. -/
def downloadFails (message : JSString) (failFault : Option JSError) : Process.Env :=
  { Process.exampleEnv (.fin 90) with
    downloadAudioFromS3 := fun _ => .error ⟨message⟩
    failFault := failFault }

instance (r : Record) : Decidable (FieldsInvariant r) := by
  unfold FieldsInvariant
  infer_instance

/-- The part of the field invariant that the handlers keep: a `completed`
record has the four derived fields, a `pending` record has none of them and no
`errorDetail`, and the four derived fields are present together or absent
together. -/
def KeptInvariant (r : Record) : Prop :=
  (r.processing_status = some .completed → r.hasResults = true) ∧
  (r.processing_status = some .pending → r.noResults = true ∧ r.error_message = none) ∧
  (r.hasResults = true ∨ r.noResults = true)

/-- A stored score is a finite number in `[0, 100]`. -/
def ScoreRange (r : Record) : Prop :=
  ∀ n, r.score = some n → ∃ q : ℚ, n = .fin q ∧ 0 ≤ q ∧ q ≤ 100

/-- The table after a second run on the record of `completedStore`, in which
the audio download fails and the failed status is written. -/
def failedAfterCompleted : Store :=
  (Process.handler (downloadFails (lit "NoSuchKey") none) (.body (some (lit "r1")))
    completedStore).1

/-- The assignments of the failed-status write for an exception with the given
message, as a record update: the status, `updated_at`, and `error_message` when
the message is not the empty string. -/
def failedRecord (updated message : JSString) (r : Record) : Record :=
  { r with
    processing_status := some .failed
    updated_at := some updated
    error_message := if message = [] then r.error_message else some message }

/-- The record of `exampleStore now`. -/
def pendingRecord (now : Nat) : Record :=
  Submit.dbRecord (Process.exampleSubmitEnv now) (lit " Ada ") (lit "webm") (.fin 1000)

/-- The table after the claim write of a run on `exampleStore 0`. -/
def claimedStore : Store :=
  (handlerTry (downloadFails (lit "NoSuchKey") none) (.body (some (lit "r1")))
    (Process.exampleStore 0)).1

/-! ## Leaderboard statistics and truncation -/

namespace Leaderboard

/-- The average as the specification words it: 0 for no score, and otherwise
the mean rounded to the nearest integer, halves up, which is
`floor((2 * sum + n) / (2 * n))` for `n` scores. -/
def roundedMean (scores : List Nat) : Nat :=
  if scores.length = 0 then 0
  else (2 * scores.sum + scores.length) / (2 * scores.length)

/-- The natural number that an integer score denotes. -/
def natOf : JSNum → Nat
  | .fin q => q.num.toNat
  | _ => 0

/-- The sum that the `reduce` of the handler computes over the scores. -/
def sumScores (init : JSNum) (l : List Record) : JSNum :=
  l.foldl (fun sum item => JSNum.add sum (scoreOf item)) init

/-- The number that `entry.score` denotes (`undefined` is `NaN`). -/
def entryScore (e : Entry) : JSNum :=
  match e.score with
  | some n => n
  | none => .nan

/-- Completed records with the given scores, one per score, in this order. -/
def recordsWithScores (scores : List ℚ) : List Record :=
  scores.mapIdx (fun i q => completedRecord (toString i) q)

end Leaderboard

/-- An environment whose query returns the given records. -/
def Leaderboard.returning (results : List Record) : Leaderboard.Env :=
  { today := lit "2025-01-15"
    lastUpdated := lit "2025-01-15T10:00:00.000Z"
    query := fun _ _ => .ok results }

namespace Leaderboard

/-- Modelled from the spec: the index `session-date-score-index` and the answer
of the store to the `QueryCommand` on it; the declaration of the index is not
among the source files. The query retrieves the submissions of the table with
the given session date, highest score first, and, as the `Limit` parameter of
the command asks, at most `Limit` of them; a `Limit` that is not a positive
integer is rejected with a validation error. -/
def queryTable (s : Store) (sessionDate : JSString) (limit : Option Int) :
    Except JSError (List Record) :=
  match limit with
  | none => .error ⟨lit "ValidationException"⟩
  | some k =>
    if k ≤ 0 then .error ⟨lit "ValidationException"⟩
    else
      .ok ((sort compareFn
        (s.filter (fun r => decide (r.session_date = some sessionDate)))).take k.toNat)

/-- The environment of a leaderboard request answered from the table `s`, at
the given date and time. -/
def tableEnv (s : Store) (today lastUpdated : JSString) : Env :=
  { today := today
    lastUpdated := lastUpdated
    query := queryTable s }

/-- The environment of the example requests on the table `s`. -/
def exampleTableEnv (s : Store) : Env :=
  tableEnv s (lit "2025-01-15") (lit "2025-01-15T10:00:00.000Z")

/-- A table with three completed submissions of one day, scored 95, 82, 70. -/
def threeCompleted : Store :=
  [ { completedRecord "a" 95 with session_date := some (lit "2025-01-15") },
    { completedRecord "b" 82 with session_date := some (lit "2025-01-15") },
    { completedRecord "c" 70 with session_date := some (lit "2025-01-15") } ]

/-- The response body of a request, when there is one. -/
def Response.body? : Response → Option Body
  | .ok body => some body
  | .error _ => none

end Leaderboard

/-! ## Frontend validators -/

namespace Frontend

def MIN_NAME_LENGTH : Nat := 1
def MAX_NAME_LENGTH : Nat := 50

/-- The result object of `validateName`: `error` when invalid, `value` when
valid. -/
structure NameValidation where
  valid : Bool
  error : Option JSString
  value : Option JSString
deriving DecidableEq

/-- The function `validateName` of the frontend validators. Template literals
are written with their constants substituted. -/
def validateName (name : JSVal) : NameValidation :=
  match name with
  | .str s =>
    if !(JSVal.str s).truthy then
      { valid := false, error := some (lit "Name is required"), value := none }
    else
      let trimmed := trim s
      if trimmed.length < MIN_NAME_LENGTH then
        { valid := false, error := some (lit "Name must be at least 1 character"), value := none }
      else if trimmed.length > MAX_NAME_LENGTH then
        { valid := false, error := some (lit "Name must not exceed 50 characters"),
          value := none }
      else { valid := true, error := none, value := some trimmed }
  | _ => { valid := false, error := some (lit "Name is required"), value := none }

end Frontend

/-! # Theorems -/

open Submit Process Leaderboard

theorem nameStep_spec (errors : List JSString) (name : JSVal) :
    (NameRule name → validateNameStep errors name = errors) ∧
    (¬ NameRule name → ∃ m ∈ nameViolations, validateNameStep errors name = errors ++ [m]) := by
  cases name with
  | str s =>
    have hrule : NameRule (.str s) ↔ s ≠ [] ∧ 1 ≤ (trim s).length ∧ (trim s).length ≤ 50 := by
      constructor
      · rintro ⟨t, ht, h⟩
        cases ht
        exact h
      · intro h
        exact ⟨s, rfl, h⟩
    rw [hrule]
    unfold validateNameStep
    by_cases h0 : s = []
    · subst h0
      simp [JSVal.truthy, nameViolations]
    · by_cases h1 : (trim s).length < MIN_NAME_LENGTH
      · have : ¬ 1 ≤ (trim s).length := by
          simp only [MIN_NAME_LENGTH] at h1
          omega
        simp [JSVal.truthy, h0, h1, this, nameViolations]
      · by_cases h2 : (trim s).length > MAX_NAME_LENGTH
        · have : ¬ (trim s).length ≤ 50 := by
            simp only [MAX_NAME_LENGTH] at h2
            omega
          simp [JSVal.truthy, h0, h1, h2, this, nameViolations]
        · have h3 : 1 ≤ (trim s).length := by
            simp only [MIN_NAME_LENGTH] at h1
            omega
          have h4 : (trim s).length ≤ 50 := by
            simp only [MAX_NAME_LENGTH] at h2
            omega
          simp [JSVal.truthy, h0, h1, h2, h3, h4]
  | _ =>
    refine ⟨?_, fun _ => ⟨_, ?_, rfl⟩⟩
    · rintro ⟨t, ht, _⟩
      cases ht
    · simp [nameViolations]

theorem toLowerCase_allowed (a : JSString) (ha : a ∈ ALLOWED_AUDIO_FORMATS) :
    toLowerCase a = a := by
  have h : ∀ b ∈ ALLOWED_AUDIO_FORMATS, toLowerCase b = b := by decide
  exact h a ha

theorem formatStep_spec (errors : List JSString) (audioFormat : JSVal) :
    (FormatRule audioFormat → validateFormatStep errors audioFormat = errors) ∧
    (¬ FormatRule audioFormat →
      ∃ m ∈ formatViolations, validateFormatStep errors audioFormat = errors ++ [m]) := by
  cases audioFormat with
  | str s =>
    have hrule : FormatRule (.str s) ↔ toLowerCase s ∈ ALLOWED_AUDIO_FORMATS := by
      constructor
      · rintro ⟨t, ht, a, ha, h⟩
        cases ht
        rw [h, toLowerCase_allowed a ha]
        exact ha
      · intro h
        exact ⟨s, rfl, toLowerCase s, h, (toLowerCase_allowed _ h).symm⟩
    rw [hrule]
    unfold validateFormatStep
    by_cases h0 : s = []
    · subst h0
      have : ¬ toLowerCase [] ∈ ALLOWED_AUDIO_FORMATS := by decide
      simp [JSVal.truthy, formatViolations, this]
    · by_cases h1 : toLowerCase s ∈ ALLOWED_AUDIO_FORMATS
      · simp [JSVal.truthy, h0, h1]
      · simp [JSVal.truthy, h0, h1, formatViolations]
  | _ =>
    refine ⟨?_, fun _ => ⟨_, ?_, rfl⟩⟩
    · rintro ⟨t, ht, _⟩
      cases ht
    · simp [formatViolations]

theorem MAX_AUDIO_SIZE_eq : MAX_AUDIO_SIZE = 5242880 := by
  norm_num [MAX_AUDIO_SIZE]

theorem sizeStep_spec (errors : List JSString) (audioSize : JSVal) :
    (SizeRule audioSize → validateSizeStep errors audioSize = errors) ∧
    (¬ SizeRule audioSize →
      ∃ m ∈ sizeViolations, validateSizeStep errors audioSize = errors ++ [m]) := by
  cases audioSize with
  | num n =>
    have hrule : SizeRule (.num n) ↔
        JSNum.lt (.fin 0) n = true ∧ JSNum.le n (.fin 5242880) = true := by
      constructor
      · rintro ⟨t, ht, h⟩
        cases ht
        exact h
      · intro h
        exact ⟨n, rfl, h⟩
    rw [hrule]
    unfold validateSizeStep
    cases n with
    | nan => simp [JSNum.truthy, JSNum.lt, sizeViolations]
    | posInf => simp [JSNum.truthy, JSNum.lt, JSNum.le, JSNum.gt, sizeViolations]
    | negInf => simp [JSNum.truthy, JSNum.lt, JSNum.le, JSNum.gt, sizeViolations]
    | fin q =>
      simp only [JSNum.truthy, JSNum.lt, JSNum.le, JSNum.gt, MAX_AUDIO_SIZE_eq, sizeViolations]
      by_cases h0 : q = 0
      · subst h0
        simp
      · by_cases h1 : q ≤ 0
        · have : ¬ 0 < q := not_lt.mpr h1
          simp [h0, h1, this]
        · by_cases h2 : 5242880 < q
          · have : ¬ q ≤ 5242880 := not_le.mpr h2
            simp [h0, h1, h2, this]
          · have h3 : 0 < q := not_le.mp h1
            have h4 : q ≤ 5242880 := not_lt.mp h2
            simp [h0, h1, h2, h3, h4]
  | _ =>
    refine ⟨?_, fun _ => ⟨_, ?_, rfl⟩⟩
    · rintro ⟨t, ht, _⟩
      cases ht
    · simp [sizeViolations]

theorem nameStep_append (errors : List JSString) (name : JSVal) :
    validateNameStep errors name = errors ++ validateNameStep [] name := by
  unfold validateNameStep
  split <;> (repeat' split) <;> simp

theorem formatStep_append (errors : List JSString) (audioFormat : JSVal) :
    validateFormatStep errors audioFormat = errors ++ validateFormatStep [] audioFormat := by
  unfold validateFormatStep
  split <;> (repeat' split) <;> simp

theorem sizeStep_append (errors : List JSString) (audioSize : JSVal) :
    validateSizeStep errors audioSize = errors ++ validateSizeStep [] audioSize := by
  unfold validateSizeStep
  split <;> (repeat' split) <;> simp

theorem validateInput_errors (name audioFormat audioSize : JSVal) :
    (validateInput name audioFormat audioSize).errors =
      validateNameStep [] name ++ validateFormatStep [] audioFormat ++
        validateSizeStep [] audioSize := by
  simp only [validateInput]
  rw [sizeStep_append, formatStep_append]

theorem validateInput_valid (name audioFormat audioSize : JSVal) :
    (validateInput name audioFormat audioSize).valid = true ↔
      (validateInput name audioFormat audioSize).errors = [] := by
  simp [validateInput]

/-- C1: the error list of `validateInput` is the concatenation, in the order
name, format, size, of one part per field; a part is empty when the field's rule
holds and is exactly one violation string of that field when the rule is broken
(no short-circuit between fields); `valid` is true exactly when the list is
empty, which is exactly when all three rules hold. -/
theorem validateInput_spec (name audioFormat audioSize : JSVal) :
    ∃ en ef es : List JSString,
      (validateInput name audioFormat audioSize).errors = en ++ ef ++ es ∧
      (NameRule name → en = []) ∧
      (¬ NameRule name → ∃ m ∈ nameViolations, en = [m]) ∧
      (FormatRule audioFormat → ef = []) ∧
      (¬ FormatRule audioFormat → ∃ m ∈ formatViolations, ef = [m]) ∧
      (SizeRule audioSize → es = []) ∧
      (¬ SizeRule audioSize → ∃ m ∈ sizeViolations, es = [m]) ∧
      ((validateInput name audioFormat audioSize).valid = true ↔
        (validateInput name audioFormat audioSize).errors = []) ∧
      ((validateInput name audioFormat audioSize).valid = true ↔
        NameRule name ∧ FormatRule audioFormat ∧ SizeRule audioSize) := by
  have hn := nameStep_spec [] name
  have hf := formatStep_spec [] audioFormat
  have hs := sizeStep_spec [] audioSize
  simp only [List.nil_append] at hn hf hs
  refine ⟨validateNameStep [] name, validateFormatStep [] audioFormat,
    validateSizeStep [] audioSize, validateInput_errors _ _ _, hn.1, hn.2, hf.1, hf.2,
    hs.1, hs.2, validateInput_valid _ _ _, ?_⟩
  rw [validateInput_valid, validateInput_errors]
  constructor
  · intro h
    simp only [List.append_eq_nil] at h
    obtain ⟨⟨h1, h2⟩, h3⟩ := h
    refine ⟨?_, ?_, ?_⟩
    · by_contra hc
      obtain ⟨m, _, hm⟩ := hn.2 hc
      rw [hm] at h1
      cases h1
    · by_contra hc
      obtain ⟨m, _, hm⟩ := hf.2 hc
      rw [hm] at h2
      cases h2
    · by_contra hc
      obtain ⟨m, _, hm⟩ := hs.2 hc
      rw [hm] at h3
      cases h3
  · rintro ⟨h1, h2, h3⟩
    rw [hn.1 h1, hf.1 h2, hs.1 h3]
    rfl

/-! ## Ranking -/

theorem JSNum.sub_gt_zero (a b : JSNum) : (JSNum.sub b a).gt (.fin 0) = JSNum.lt a b := by
  cases a <;> cases b <;> simp [JSNum.sub, JSNum.gt, JSNum.lt]

theorem JSNum.ge_of_not_lt {a b : JSNum} (ha : a ≠ .nan) (hb : b ≠ .nan)
    (h : JSNum.lt a b = false) : JSNum.ge a b = true := by
  cases a <;> cases b <;> simp_all [JSNum.ge, JSNum.le, JSNum.lt]

theorem JSNum.ge_of_lt {a b : JSNum} (h : JSNum.lt a b = true) : JSNum.ge b a = true := by
  cases a <;> cases b <;> simp_all [JSNum.ge, JSNum.le, JSNum.lt]
  exact le_of_lt h

theorem JSNum.ge_trans {a b c : JSNum} (h1 : JSNum.ge a b = true) (h2 : JSNum.ge b c = true) :
    JSNum.ge a c = true := by
  cases a <;> cases b <;> cases c <;> simp_all [JSNum.ge, JSNum.le]
  exact le_trans h2 h1

theorem insertSorted_perm {α : Type} (cmp : α → α → JSNum) (x : α) (l : List α) :
    (insertSorted cmp x l).Perm (x :: l) := by
  induction l with
  | nil => exact List.Perm.refl _
  | cons y ys ih =>
    simp only [insertSorted]
    split
    · exact ((List.Perm.cons y ih).trans (List.Perm.swap x y ys))
    · exact List.Perm.refl _

theorem sort_perm {α : Type} (cmp : α → α → JSNum) (l : List α) : (sort cmp l).Perm l := by
  induction l with
  | nil => exact List.Perm.refl _
  | cons x xs ih =>
    have h : sort cmp (x :: xs) = insertSorted cmp x (sort cmp xs) := rfl
    rw [h]
    exact (insertSorted_perm cmp x _).trans (List.Perm.cons x ih)

theorem compareFn_gt (x y : Record) :
    (compareFn x y).gt (.fin 0) = (scoreOf x).lt (scoreOf y) := by
  simp only [compareFn, JSNum.sub_gt_zero]

theorem insertSorted_descending (x : Record) (l : List Record) (hx : scoreOf x ≠ .nan)
    (hl : ∀ r ∈ l, scoreOf r ≠ .nan) (hs : Descending l) :
    Descending (insertSorted compareFn x l) := by
  induction l with
  | nil => simp [insertSorted, Descending]
  | cons y ys ih =>
    have hy : scoreOf y ≠ .nan := hl y (List.mem_cons_self _ _)
    have hys : ∀ r ∈ ys, scoreOf r ≠ .nan := fun r hr => hl r (List.mem_cons_of_mem _ hr)
    have hs2 := List.pairwise_cons.mp hs
    simp only [insertSorted, compareFn_gt]
    by_cases hlt : (scoreOf x).lt (scoreOf y) = true
    · rw [if_pos hlt]
      refine List.pairwise_cons.mpr ⟨?_, ih hys hs2.2⟩
      intro z hz
      have hz2 : z ∈ x :: ys := (insertSorted_perm compareFn x ys).subset hz
      rcases List.mem_cons.mp hz2 with h | h
      · rw [h]
        exact JSNum.ge_of_lt hlt
      · exact hs2.1 z h
    · rw [if_neg hlt]
      have hge : (scoreOf x).ge (scoreOf y) = true :=
        JSNum.ge_of_not_lt hx hy (by simpa using hlt)
      refine List.pairwise_cons.mpr ⟨?_, hs⟩
      intro z hz
      rcases List.mem_cons.mp hz with h | h
      · rw [h]
        exact hge
      · exact JSNum.ge_trans hge (hs2.1 z h)

theorem sort_descending (l : List Record) (hl : ∀ r ∈ l, scoreOf r ≠ .nan) :
    Descending (sort compareFn l) := by
  induction l with
  | nil => simp [sort, Descending]
  | cons x xs ih =>
    have h : sort compareFn (x :: xs) = insertSorted compareFn x (sort compareFn xs) := rfl
    rw [h]
    have hxs : ∀ r ∈ xs, scoreOf r ≠ .nan := fun r hr => hl r (List.mem_cons_of_mem _ hr)
    refine insertSorted_descending x _ (hl x (List.mem_cons_self _ _)) ?_ (ih hxs)
    intro r hr
    exact hxs r ((sort_perm compareFn xs).subset hr)

theorem JSNum.lt_irrefl (a : JSNum) : JSNum.lt a a = false := by
  cases a <;> simp [JSNum.lt]

theorem insertSorted_filter_score (v : JSNum) (x : Record) (l : List Record) :
    (insertSorted compareFn x l).filter (fun r => decide (scoreOf r = v)) =
      (x :: l).filter (fun r => decide (scoreOf r = v)) := by
  induction l with
  | nil => simp [insertSorted]
  | cons y ys ih =>
    simp only [insertSorted, compareFn_gt]
    by_cases hlt : (scoreOf x).lt (scoreOf y) = true
    · rw [if_pos hlt]
      have hne : ¬ (scoreOf x = v ∧ scoreOf y = v) := by
        rintro ⟨h1, h2⟩
        rw [h1, h2, JSNum.lt_irrefl] at hlt
        cases hlt
      rw [List.filter_cons, ih]
      by_cases hx : scoreOf x = v
      · have hy : ¬ scoreOf y = v := fun h => hne ⟨hx, h⟩
        simp [List.filter_cons, hx, hy]
      · simp [List.filter_cons, hx]
    · rw [if_neg hlt]

theorem sort_filter_score (v : JSNum) (l : List Record) :
    (sort compareFn l).filter (fun r => decide (scoreOf r = v)) =
      l.filter (fun r => decide (scoreOf r = v)) := by
  induction l with
  | nil => rfl
  | cons x xs ih =>
    have h : sort compareFn (x :: xs) = insertSorted compareFn x (sort compareFn xs) := rfl
    rw [h, insertSorted_filter_score, List.filter_cons, List.filter_cons, ih]

/-- C2: when every completed record retrieved carries a score that is a number,
the full ranked list, of which the handler returns the first `limit` entries, is
built from the sorted array of completed records, which is a permutation of the
completed records, is in descending score order and keeps the retrieval order
among the records of any one score; the ranked list has the entry of the record
at 0-based position `i`, with rank `i + 1`, at position `i`. -/
theorem ranked_sorted_stable (results : List Record)
    (hscore : ∀ r ∈ results, isCompleted r = true → scoreOf r ≠ .nan) :
    (∀ limit sessionDate lastUpdated,
      (buildBody results limit sessionDate lastUpdated).leaderboard =
        slice0 (rankedList results) limit) ∧
    (sortedCompleted results).Perm (results.filter isCompleted) ∧
    Descending (sortedCompleted results) ∧
    (∀ v, (sortedCompleted results).filter (fun r => decide (scoreOf r = v)) =
      (results.filter isCompleted).filter (fun r => decide (scoreOf r = v))) ∧
    (rankedList results).length = (results.filter isCompleted).length ∧
    (∀ i, ∀ h : i < (sortedCompleted results).length,
      (rankedList results)[i]? = some (toEntry i ((sortedCompleted results).get ⟨i, h⟩)) ∧
      (toEntry i ((sortedCompleted results).get ⟨i, h⟩)).rank = i + 1) := by
  refine ⟨fun _ _ _ => rfl, sort_perm _ _, ?_, fun v => sort_filter_score v _, ?_, ?_⟩
  · apply sort_descending
    intro r hr
    have := List.mem_filter.mp hr
    exact hscore r this.1 this.2
  · simp only [rankedList, List.length_mapIdx]
    exact (sort_perm compareFn (results.filter isCompleted)).length_eq
  · intro i h
    refine ⟨?_, rfl⟩
    simp only [rankedList, List.getElem?_mapIdx, List.get_eq_getElem]
    rw [List.getElem?_eq_getElem h]
    rfl

/-- C2, on the specification's example: scores 70, 95, 70, 82 in store order
are ranked 1:95, 2:82, 3:70 (the first 70), 4:70 (the second 70). -/
theorem ranked_sorted_stable_witness :
    (∀ r ∈ exampleResults, isCompleted r = true → scoreOf r ≠ .nan) ∧
    ((∀ limit sessionDate lastUpdated,
        (buildBody exampleResults limit sessionDate lastUpdated).leaderboard =
          slice0 (rankedList exampleResults) limit) ∧
      (sortedCompleted exampleResults).Perm (exampleResults.filter isCompleted) ∧
      Descending (sortedCompleted exampleResults) ∧
      (∀ v, (sortedCompleted exampleResults).filter (fun r => decide (scoreOf r = v)) =
        (exampleResults.filter isCompleted).filter (fun r => decide (scoreOf r = v))) ∧
      (rankedList exampleResults).length = (exampleResults.filter isCompleted).length ∧
      (∀ i, ∀ h : i < (sortedCompleted exampleResults).length,
        (rankedList exampleResults)[i]? =
          some (toEntry i ((sortedCompleted exampleResults).get ⟨i, h⟩)) ∧
        (toEntry i ((sortedCompleted exampleResults).get ⟨i, h⟩)).rank = i + 1)) ∧
    (rankedList exampleResults).map (fun e => (e.rank, e.score, e.name)) =
      [(1, some (.fin 95), some (lit "b")), (2, some (.fin 82), some (lit "d")),
       (3, some (.fin 70), some (lit "a")), (4, some (.fin 70), some (lit "c"))] :=
  ⟨by decide!, ranked_sorted_stable exampleResults (by decide!), by decide!⟩

/-! ## Filtering -/

theorem slice0_of_length_le {α : Type} (l : List α) (k : Int) (h : (l.length : Int) ≤ k) :
    slice0 l (some k) = l := by
  have hk : ¬ k < 0 := by omega
  simp only [slice0, if_neg hk]
  apply List.take_of_length_le
  omega

/-- C3: when the limit of the request is at least the number of records
retrieved, the returned leaderboard is the list of entries of a rearrangement of
exactly the completed records among those retrieved (an entry for each completed
record and for no other record), and `totalParticipants` is the number of
completed records, which is the length of that leaderboard. -/
theorem leaderboard_only_completed (env : Leaderboard.Env) (event : Leaderboard.Event)
    (results : List Record) (k : Int)
    (hq : queryLeaderboard env (sessionDateOf env event) (limitOf event) = .ok results)
    (hl : limitOf event = some k) (hk : (results.length : Int) ≤ k) :
    ∃ body, Leaderboard.handler env event = .ok body ∧
      (∃ l : List Record, l.Perm (results.filter isCompleted) ∧
        body.leaderboard = l.mapIdx toEntry) ∧
      body.totalParticipants = (results.filter (fun r =>
        decide (r.processing_status = some Status.completed))).length ∧
      body.totalParticipants = body.leaderboard.length := by
  have hperm := sort_perm compareFn (results.filter isCompleted)
  have hlen : ((List.mapIdx toEntry (sortedCompleted results)).length : Int) ≤ k := by
    rw [List.length_mapIdx]
    have h1 : (sortedCompleted results).length = (results.filter isCompleted).length :=
      hperm.length_eq
    have h2 := List.length_filter_le isCompleted results
    omega
  refine ⟨buildBody results (limitOf event) (sessionDateOf env event) env.lastUpdated, ?_, ?_, ?_, ?_⟩
  · simp only [Leaderboard.handler, hq]
  · refine ⟨sortedCompleted results, hperm, ?_⟩
    simp only [buildBody, hl]
    exact slice0_of_length_le _ _ hlen
  · simp only [buildBody]
    exact hperm.length_eq
  · simp only [buildBody, hl]
    rw [slice0_of_length_le _ _ hlen, List.length_mapIdx]

theorem exampleQueryEnv_limit : limitOf { sessionDate := none, limit := none } = some 100 := by
  decide

/-- C3, on the example: of the seven records retrieved, the four completed ones
and only they are on the leaderboard. -/
theorem leaderboard_only_completed_witness :
    ∃ body, Leaderboard.handler exampleQueryEnv { sessionDate := none, limit := none } = .ok body ∧
      (∃ l : List Record, l.Perm (exampleResults.filter isCompleted) ∧
        body.leaderboard = l.mapIdx toEntry) ∧
      body.totalParticipants = (exampleResults.filter (fun r =>
        decide (r.processing_status = some Status.completed))).length ∧
      body.totalParticipants = body.leaderboard.length :=
  leaderboard_only_completed exampleQueryEnv { sessionDate := none, limit := none } exampleResults 100
    rfl exampleQueryEnv_limit (by decide)

/-! ## The table -/

theorem hasKey_of_keepsKey {f : Record → Record} (hf : KeepsKey f) (id : JSString) (ts : Nat)
    (r : Record) : hasKey id ts (f r) = hasKey id ts r := by
  simp only [hasKey, (hf r).1, (hf r).2]

theorem statusAssignments_keepsKey (status : Status) (updated : JSString)
    (m : Option JSString) : KeepsKey (statusAssignments status updated m) := by
  intro r
  unfold statusAssignments
  cases m with
  | none => exact ⟨rfl, rfl⟩
  | some m =>
    simp only
    split <;> exact ⟨rfl, rfl⟩

theorem resultAssignments_keepsKey (t : JSString) (sc : JSNum) (ro : JSVal) (u : JSString)
    (pe : Bool) (c : JSString) : KeepsKey (resultAssignments t sc ro u pe c) :=
  fun _ => ⟨rfl, rfl⟩

theorem find_map_update (s : Store) (id : JSString) (ts : Nat) (f : Record → Record)
    (hf : KeepsKey f) (id2 : JSString) (ts2 : Nat) :
    (s.map (fun r => if hasKey id ts r then f r else r)).find? (hasKey id2 ts2) =
      (s.find? (hasKey id2 ts2)).map (fun r => if hasKey id ts r then f r else r) := by
  induction s with
  | nil => rfl
  | cons x xs ih =>
    simp only [List.map_cons, List.find?_cons]
    have hk : hasKey id2 ts2 (if hasKey id ts x then f x else x) = hasKey id2 ts2 x := by
      split
      · exact hasKey_of_keepsKey hf id2 ts2 x
      · rfl
    rw [hk]
    cases hasKey id2 ts2 x with
    | true => rfl
    | false => exact ih

theorem hasKey_of_find {s : Store} {id : JSString} {ts : Nat} {r : Record}
    (h : s.find? (hasKey id ts) = some r) : hasKey id ts r = true := by
  have := List.find?_some h
  exact this

theorem getItem_updateItem_same (s : Store) (id : JSString) (ts : Nat) (f : Record → Record)
    (hf : KeepsKey f) (r : Record) (h : s.getItem id ts = some r) :
    (s.updateItem id ts f).getItem id ts = some (f r) := by
  have hany : s.any (hasKey id ts) = true := by
    rw [List.any_eq_true]
    exact ⟨r, List.mem_of_find?_eq_some h, hasKey_of_find h⟩
  simp only [Store.updateItem, hany, if_true, Store.getItem]
  rw [find_map_update s id ts f hf id ts]
  simp only [Store.getItem] at h
  rw [h]
  simp [hasKey_of_find h]

theorem hasKey_ne {id id2 : JSString} {ts ts2 : Nat} (hne : ¬ (id2 = id ∧ ts2 = ts))
    (r : Record) (h : hasKey id2 ts2 r = true) : hasKey id ts r = false := by
  simp only [hasKey, Bool.and_eq_true, decide_eq_true_eq] at h
  simp only [hasKey, Bool.and_eq_false_iff, decide_eq_false_iff_not]
  by_contra hc
  push_neg at hc
  exact hne ⟨h.1.symm.trans hc.1, h.2.symm.trans hc.2⟩

theorem getItem_updateItem_other (s : Store) (id : JSString) (ts : Nat) (f : Record → Record)
    (hf : KeepsKey f) (id2 : JSString) (ts2 : Nat) (hne : ¬ (id2 = id ∧ ts2 = ts)) :
    (s.updateItem id ts f).getItem id2 ts2 = s.getItem id2 ts2 := by
  simp only [Store.updateItem, Store.getItem]
  split
  · rw [find_map_update s id ts f hf id2 ts2]
    cases hfind : s.find? (hasKey id2 ts2) with
    | none => rfl
    | some r =>
      simp only [Option.map_some', hasKey_ne hne r (hasKey_of_find hfind)]
      rfl
  · rw [List.find?_append]
    have hnew : hasKey id2 ts2 (f { response_id := id, timestamp := ts }) = false := by
      rw [hasKey_of_keepsKey hf]
      simp only [hasKey, Bool.and_eq_false_iff, decide_eq_false_iff_not]
      by_contra hc
      push_neg at hc
      exact hne ⟨hc.1.symm, hc.2.symm⟩
    simp [List.find?_cons, hnew]

/-! ## Retry -/

theorem retryWithBackoff_cases {α : Type} (fn : Nat → Except JSError α) :
    retryWithBackoff fn =
      match fn 0 with
      | .ok v => { outcome := .ok (some v), trace := [.call 0] }
      | .error _ =>
        match fn 1 with
        | .ok v => { outcome := .ok (some v), trace := [.call 0, .wait 1000, .call 1] }
        | .error _ =>
          match fn 2 with
          | .ok v =>
            { outcome := .ok (some v)
              trace := [.call 0, .wait 1000, .call 1, .wait 2000, .call 2] }
          | .error e =>
            { outcome := .error e
              trace := [.call 0, .wait 1000, .call 1, .wait 2000, .call 2] } := by
  unfold retryWithBackoff
  simp only [retryLoop]
  cases fn 0 <;> cases fn 1 <;> cases fn 2 <;> simp

theorem traceUpTo_zero : traceUpTo 0 = [.call 0] := by decide

theorem traceUpTo_one : traceUpTo 1 = [.call 0, .wait 1000, .call 1] := by decide

theorem traceUpTo_two :
    traceUpTo 2 = [.call 0, .wait 1000, .call 1, .wait 2000, .call 2] := by decide

/-- C9: with its defaults `retryWithBackoff` calls `fn` at most 3 times; when
call `k < 3` is the first that succeeds, its value is returned and the trace is
the calls `0..k` in order, each failed call followed by a wait of
`1000 * 2 ^ i` ms, with nothing after call `k`; when the three calls fail, the
calls are `0, 1, 2`, the waits are exactly `[1000, 2000]`, the trace ends with
the third call, and the exception of the third call is thrown. -/
theorem retryWithBackoff_spec {α : Type} (fn : Nat → Except JSError α) :
    (callsOf (retryWithBackoff fn).trace).length ≤ 3 ∧
    (∀ k v, k < 3 → (∀ j < k, Fails fn j) → fn k = .ok v →
      (retryWithBackoff fn).outcome = .ok (some v) ∧
      (retryWithBackoff fn).trace = traceUpTo k) ∧
    (∀ e, (∀ j < 2, Fails fn j) → fn 2 = .error e →
      (retryWithBackoff fn).outcome = .error e ∧
      (retryWithBackoff fn).trace = traceUpTo 2 ∧
      callsOf (retryWithBackoff fn).trace = [0, 1, 2] ∧
      waitsOf (retryWithBackoff fn).trace = [1000, 2000] ∧
      (retryWithBackoff fn).trace.getLast? = some (.call 2)) := by
  rw [retryWithBackoff_cases]
  refine ⟨?_, ?_, ?_⟩
  · cases fn 0 <;> cases fn 1 <;> cases fn 2 <;> simp [callsOf]
  · intro k v hk hfail hok
    have hcases : k = 0 ∨ k = 1 ∨ k = 2 := by omega
    rcases hcases with rfl | rfl | rfl
    · rw [hok, traceUpTo_zero]
      exact ⟨rfl, rfl⟩
    · obtain ⟨e0, h0⟩ := hfail 0 (by omega)
      rw [h0, hok, traceUpTo_one]
      exact ⟨rfl, rfl⟩
    · obtain ⟨e0, h0⟩ := hfail 0 (by omega)
      obtain ⟨e1, h1⟩ := hfail 1 (by omega)
      rw [h0, h1, hok, traceUpTo_two]
      exact ⟨rfl, rfl⟩
  · intro e hfail herr
    obtain ⟨e0, h0⟩ := hfail 0 (by omega)
    obtain ⟨e1, h1⟩ := hfail 1 (by omega)
    rw [h0, h1, herr, traceUpTo_two]
    exact ⟨rfl, rfl, rfl, rfl, rfl⟩

/-- C9, on two operations: one that always fails (three calls, waits 1000 and
2000, the third exception thrown) and one that fails once (two calls, one wait
of 1000, the value of the second call returned). -/
theorem retryWithBackoff_spec_witness :
    ((retryWithBackoff alwaysFails).outcome = .error ⟨[50]⟩ ∧
      (retryWithBackoff alwaysFails).trace = traceUpTo 2 ∧
      callsOf (retryWithBackoff alwaysFails).trace = [0, 1, 2] ∧
      waitsOf (retryWithBackoff alwaysFails).trace = [1000, 2000] ∧
      (retryWithBackoff alwaysFails).trace.getLast? = some (.call 2)) ∧
    ((retryWithBackoff failsOnce).outcome = .ok (some (lit "hello")) ∧
      (retryWithBackoff failsOnce).trace = traceUpTo 1) :=
  ⟨(retryWithBackoff_spec alwaysFails).2.2 ⟨[50]⟩ (fun j _ => ⟨_, rfl⟩) rfl,
   (retryWithBackoff_spec failsOnce).2.1 1 (lit "hello") (by decide)
     (fun j hj => ⟨⟨lit "timeout"⟩, by
       have : j = 0 := by omega
       subst this
       rfl⟩) rfl⟩

theorem retryWithBackoff_ok_inv {α : Type} (fn : Nat → Except JSError α) (v : α)
    (h : (retryWithBackoff fn).outcome = .ok (some v)) :
    ∃ i, i < 3 ∧ (∀ j < i, Fails fn j) ∧ fn i = .ok v := by
  rw [retryWithBackoff_cases] at h
  cases h0 : fn 0 with
  | ok v0 =>
    rw [h0] at h
    simp only [Except.ok.injEq, Option.some.injEq] at h
    exact ⟨0, by omega, fun j hj => absurd hj (by omega), by rw [h0, h]⟩
  | error e0 =>
    rw [h0] at h
    cases h1 : fn 1 with
    | ok v1 =>
      rw [h1] at h
      simp only [Except.ok.injEq, Option.some.injEq] at h
      refine ⟨1, by omega, fun j hj => ?_, by rw [h1, h]⟩
      have : j = 0 := by omega
      subst this
      exact ⟨e0, h0⟩
    | error e1 =>
      rw [h1] at h
      cases h2 : fn 2 with
      | ok v2 =>
        rw [h2] at h
        simp only [Except.ok.injEq, Option.some.injEq] at h
        refine ⟨2, by omega, fun j hj => ?_, by rw [h2, h]⟩
        have : j = 0 ∨ j = 1 := by omega
        rcases this with rfl | rfl
        · exact ⟨e0, h0⟩
        · exact ⟨e1, h1⟩
      | error e2 =>
        rw [h2] at h
        cases h

theorem retryWithBackoff_ne_undefined {α : Type} (fn : Nat → Except JSError α) :
    (retryWithBackoff fn).outcome ≠ .ok none := by
  rw [retryWithBackoff_cases]
  cases fn 0 <;> cases fn 1 <;> cases fn 2 <;> simp

theorem gradeAttempt_ok_inv (raw : Except JSError (JSVal × JSVal)) (g : Grading)
    (h : gradeAttempt raw = .ok g) :
    ∃ n roast, raw = .ok (.num n, roast) ∧ roast.truthy = true ∧
      g = { score := JSNum.max (.fin 0) (JSNum.min (.fin 100) n), roast := roast } := by
  unfold gradeAttempt at h
  split at h
  · cases h
  · split at h
    · rename_i n
      split at h
      · cases h
      · rename_i hr
        simp only [Except.ok.injEq] at h
        refine ⟨n, _, rfl, ?_, h.symm⟩
        simpa using hr
    · cases h

/-! ## Successful pipeline runs -/

theorem handlerTry_ok_inv (env : Process.Env) (event : Process.Event) (s s2 : Store)
    (id t : JSString) (sc : JSNum) (ro : JSVal) (pe : Bool)
    (h : handlerTry env event s = (s2, .ok (.ok id t sc ro pe))) :
    ∃ record s1 g, event = .body (some id) ∧ s.getItem id 0 = some record ∧
      updateStatus env.claimFault env.claimTime s id record.timestamp .processing = .ok s1 ∧
      (transcribeAudio env).outcome = .ok (some t) ∧
      (gradeResponse env).outcome = .ok (some g) ∧
      sc = g.score ∧ ro = g.roast ∧ pe = g.score.ge (.fin 80) ∧
      updateResults env.resultFault env.completedTime s1 id record.timestamp t g.score g.roast
        (tmpl record.session_date ++ lit "/" ++ id ++ lit "." ++ tmpl record.audio_format)
        pe = .ok s2 := by
  unfold handlerTry at h
  split at h
  · cases h
  · cases h
  · rename_i responseId
    split at h
    · cases h
    · split at h
      · cases h
      · cases h
      · rename_i record hget
        split at h
        · cases h
        · rename_i s1 hclaim
          simp only at h
          split at h
          · cases h
          · split at h
            · cases h
            · cases h
            · rename_i transcription htr
              split at h
              · cases h
              · cases h
              · rename_i grading hgr
                split at h
                · cases h
                · rename_i s3 hres
                  simp only [Prod.mk.injEq, Except.ok.injEq, Process.Response.ok.injEq] at h
                  obtain ⟨hs, hid, ht, hsc, hro, hpe⟩ := h
                  subst hid ht hs
                  have hget2 : s.getItem responseId 0 = some record := by
                    unfold getRecord at hget
                    split at hget
                    · cases hget
                    · simpa using hget
                  refine ⟨record, s1, grading, rfl, hget2, hclaim, htr, hgr, hsc.symm,
                    hro.symm, hpe.symm, ?_⟩
                  rw [← hpe]
                  exact hres

theorem clamp_eq_clampSpec (s : JSNum) :
    JSNum.max (.fin 0) (JSNum.min (.fin 100) s) = clampSpec s := by
  cases s with
  | nan => rfl
  | posInf => rfl
  | negInf => rfl
  | fin q =>
    simp only [JSNum.min, JSNum.max, clampSpec, JSNum.lt, JSNum.gt, decide_eq_true_eq]
    by_cases h1 : (100 : ℚ) ≤ q
    · have h2 : ¬ q < 0 := by linarith
      by_cases h3 : (100 : ℚ) < q
      · simp [h1, h2, h3, JSNum.max]
      · have : q = 100 := le_antisymm (not_lt.mp h3) h1
        subst this
        simp [JSNum.max, h2]
    · have h3 : ¬ (100 : ℚ) < q := by linarith
      by_cases h2 : q < 0
      · have : ¬ (0 : ℚ) ≤ q := by linarith
        simp [h1, h2, JSNum.max, this]
      · have : (0 : ℚ) ≤ q := not_lt.mp h2
        simp [h1, h2, h3, JSNum.max, this]

theorem gradeResponse_accepted (env : Process.Env) (i : Nat) (raw : JSNum) (roast : JSVal)
    (h : Accepted env i raw roast) :
    (gradeResponse env).outcome = .ok (some { score := clampSpec raw, roast := roast }) := by
  obtain ⟨hi, hfail, hok, hro⟩ := h
  have hatt : gradeAttempt (env.complete i) = .ok { score := clampSpec raw, roast := roast } := by
    rw [hok]
    simp [gradeAttempt, hro, clamp_eq_clampSpec]
  exact ((retryWithBackoff_spec (fun k => gradeAttempt (env.complete k))).2.1 i _ hi hfail hatt).1

theorem gradeResponse_ok_inv (env : Process.Env) (g : Grading)
    (h : (gradeResponse env).outcome = .ok (some g)) :
    ∃ i raw, Accepted env i raw g.roast ∧ g.score = clampSpec raw := by
  obtain ⟨i, hi, hfail, hok⟩ := retryWithBackoff_ok_inv _ g h
  obtain ⟨n, roast, hraw, hro, hg⟩ := gradeAttempt_ok_inv _ g hok
  subst hg
  exact ⟨i, n, ⟨hi, hfail, hraw, hro⟩, clamp_eq_clampSpec n⟩

theorem handler_ok_inv (env : Process.Env) (event : Process.Event) (s s2 : Store)
    (id t : JSString) (sc : JSNum) (ro : JSVal) (pe : Bool)
    (h : Process.handler env event s = (s2, .ok id t sc ro pe)) :
    handlerTry env event s = (s2, .ok (.ok id t sc ro pe)) := by
  unfold Process.handler at h
  split at h
  · rename_i s1 response hT
    simp only [Prod.mk.injEq] at h
    rw [hT, h.1, h.2]
  · simp only [Prod.mk.injEq] at h
    cases h.2

theorem handler_ok_persisted (env : Process.Env) (event : Process.Event) (s s2 : Store)
    (id t : JSString) (sc : JSNum) (ro : JSVal) (pe : Bool)
    (h : Process.handler env event s = (s2, .ok id t sc ro pe)) :
    (∃ i raw, Accepted env i raw ro ∧ sc = clampSpec raw) ∧ pe = sc.ge (.fin 80) ∧
    ∃ r, s2.getItem id 0 = some r ∧ r.processing_status = some .completed ∧
      r.transcription = some t ∧ r.score = some sc ∧ r.roast = some ro ∧
      r.prize_eligible = some pe := by
  obtain ⟨record, s1, g, _, hget, hclaim, _, hgr, hsc, hro, hpe, hres⟩ :=
    handlerTry_ok_inv env event s s2 id t sc ro pe (handler_ok_inv env event s s2 id t sc ro pe h)
  have hts : record.timestamp = 0 := by
    have := hasKey_of_find hget
    simp only [hasKey, Bool.and_eq_true, decide_eq_true_eq] at this
    exact this.2
  obtain ⟨i, raw, hacc, hclamp⟩ := gradeResponse_ok_inv env g hgr
  refine ⟨⟨i, raw, by rw [hro]; exact hacc, by rw [hsc]; exact hclamp⟩, by rw [hpe, hsc], ?_⟩
  rw [hts] at hclaim hres
  unfold updateStatus at hclaim
  split at hclaim
  · cases hclaim
  · simp only [Except.ok.injEq] at hclaim
    have h1 := getItem_updateItem_same s id 0 _ (statusAssignments_keepsKey .processing
      env.claimTime none) record hget
    rw [hclaim] at h1
    unfold updateResults at hres
    split at hres
    · cases hres
    · simp only [Except.ok.injEq] at hres
      have h2 := getItem_updateItem_same s1 id 0 _ (resultAssignments_keepsKey t g.score g.roast
        (tmpl record.session_date ++ lit "/" ++ id ++ lit "." ++ tmpl record.audio_format)
        pe env.completedTime) _ h1
      rw [hres] at h2
      refine ⟨_, h2, rfl, rfl, ?_, ?_, rfl⟩
      · simp only [resultAssignments, hsc]
      · simp only [resultAssignments, hro]

theorem accepted_unique (env : Process.Env) (i j : Nat) (raw raw2 : JSNum) (ro ro2 : JSVal)
    (h1 : Accepted env i raw ro) (h2 : Accepted env j raw2 ro2) : i = j ∧ raw = raw2 := by
  obtain ⟨_, hf1, hok1, hro1⟩ := h1
  obtain ⟨_, hf2, hok2, hro2⟩ := h2
  have hij : i = j := by
    rcases Nat.lt_trichotomy i j with hlt | heq | hgt
    · obtain ⟨e, he⟩ := hf2 i hlt
      simp [hok1, gradeAttempt, hro1] at he
    · exact heq
    · obtain ⟨e, he⟩ := hf1 j hgt
      simp [hok2, gradeAttempt, hro2] at he
  subst hij
  rw [hok1] at hok2
  simp only [Except.ok.injEq, Prod.mk.injEq, JSVal.num.injEq] at hok2
  exact ⟨rfl, hok2.1⟩

theorem clampSpec_cases (s : JSNum) :
    (JSNum.le (.fin 0) s = true ∧ JSNum.le s (.fin 100) = true → clampSpec s = s) ∧
    (JSNum.lt s (.fin 0) = true → clampSpec s = .fin 0) ∧
    (JSNum.gt s (.fin 100) = true → clampSpec s = .fin 100) := by
  refine ⟨?_, ?_, ?_⟩
  · rintro ⟨h0, h1⟩
    cases s with
    | fin q =>
      simp only [JSNum.le, decide_eq_true_eq] at h0 h1
      have h2 : ¬ q < 0 := not_lt.mpr h0
      have h3 : ¬ (100 : ℚ) < q := not_lt.mpr h1
      simp [clampSpec, JSNum.lt, JSNum.gt, h2, h3]
    | nan => rfl
    | posInf => simp [JSNum.le] at h1
    | negInf => simp [JSNum.le] at h0
  · intro h
    simp [clampSpec, h]
  · intro h
    have h2 : JSNum.lt s (.fin 0) = false := by
      cases s with
      | fin q =>
        simp only [JSNum.gt, JSNum.lt, decide_eq_true_eq] at h
        have : ¬ q < 0 := by linarith
        simp [JSNum.lt, this]
      | nan => rfl
      | posInf => rfl
      | negInf => simp [JSNum.gt, JSNum.lt] at h
    simp [clampSpec, h, h2]

/-- C4: for every grading response that `gradeResponse` accepts, with numeric
score `raw`, the score that `gradeResponse` returns is the clamp of `raw`, and in
every run of the pipeline that responds 200 the score of the response and the
score persisted on the record are that clamp; the clamp is `raw` itself when
`0 <= raw <= 100`, `0` when `raw < 0` and `100` when `raw > 100`. -/
theorem score_clamped (env : Process.Env) (i : Nat) (raw : JSNum) (ro : JSVal)
    (hacc : Accepted env i raw ro) :
    (gradeResponse env).outcome = .ok (some { score := clampSpec raw, roast := ro }) ∧
    (∀ event s id t sc ro2 pe, (Process.handler env event s).2 = .ok id t sc ro2 pe →
      sc = clampSpec raw ∧
      ∃ r, (Process.handler env event s).1.getItem id 0 = some r ∧
        r.score = some (clampSpec raw)) ∧
    (JSNum.le (.fin 0) raw = true ∧ JSNum.le raw (.fin 100) = true → clampSpec raw = raw) ∧
    (JSNum.lt raw (.fin 0) = true → clampSpec raw = .fin 0) ∧
    (JSNum.gt raw (.fin 100) = true → clampSpec raw = .fin 100) := by
  refine ⟨gradeResponse_accepted env i raw ro hacc, ?_, clampSpec_cases raw⟩
  intro event s id t sc ro2 pe h
  have h2 : Process.handler env event s =
      ((Process.handler env event s).1, .ok id t sc ro2 pe) := Prod.ext rfl h
  obtain ⟨⟨j, raw2, hacc2, hsc⟩, _, r, hget, _, _, hscore, _, _⟩ :=
    handler_ok_persisted env event s _ id t sc ro2 pe h2
  have hraw : raw = raw2 := (accepted_unique env i j raw raw2 ro ro2 hacc hacc2).2
  subst hraw
  exact ⟨hsc, r, hget, by rw [hscore, hsc]⟩

/-- C4, on two runs: a grading response with raw score 142 is returned and
persisted as 100, one with raw score -5 as 0. -/
theorem score_clamped_witness :
    ((gradeResponse (Process.exampleEnv (.fin 142))).outcome =
        .ok (some { score := clampSpec (.fin 142), roast := .str (lit "nice") }) ∧
      (∀ event s id t sc ro2 pe,
        (Process.handler (Process.exampleEnv (.fin 142)) event s).2 = .ok id t sc ro2 pe →
        sc = clampSpec (.fin 142) ∧
        ∃ r, (Process.handler (Process.exampleEnv (.fin 142)) event s).1.getItem id 0 = some r ∧
          r.score = some (clampSpec (.fin 142))) ∧
      (JSNum.le (.fin 0) (.fin 142) = true ∧ JSNum.le (.fin 142) (.fin 100) = true →
        clampSpec (.fin 142) = .fin 142) ∧
      (JSNum.lt (.fin 142) (.fin 0) = true → clampSpec (.fin 142) = .fin 0) ∧
      (JSNum.gt (.fin 142) (.fin 100) = true → clampSpec (.fin 142) = .fin 100)) ∧
    (Process.handler (Process.exampleEnv (.fin 142)) (.body (some (lit "r1")))
        (exampleStore 0)).2 =
      .ok (lit "r1") (lit "it was great") (.fin 100) (.str (lit "nice")) true ∧
    (Process.handler (Process.exampleEnv (.fin (-5))) (.body (some (lit "r1")))
        (exampleStore 0)).2 =
      .ok (lit "r1") (lit "it was great") (.fin 0) (.str (lit "nice")) false :=
  ⟨score_clamped (Process.exampleEnv (.fin 142)) 0 (.fin 142) (.str (lit "nice"))
    ⟨by decide, fun j hj => absurd hj (by omega), rfl, rfl⟩,
   by decide!, by decide!⟩

/-- C5: in every pipeline run that responds 200, the `prizeEligible` flag of
the response is the one persisted on the record, next to the persisted score,
and it is true exactly when that score is `>= 80`: score 79 gives false, score
80 gives true, a raw grading score above 100 gives true and a raw grading score
below 0 gives false. -/
theorem prizeEligible_iff (env : Process.Env) (event : Process.Event) (s : Store)
    (id t : JSString) (sc : JSNum) (ro : JSVal) (pe : Bool)
    (h : (Process.handler env event s).2 = .ok id t sc ro pe) :
    (∃ r, (Process.handler env event s).1.getItem id 0 = some r ∧
      r.processing_status = some .completed ∧ r.score = some sc ∧
      r.prize_eligible = some pe) ∧
    (pe = true ↔ JSNum.ge sc (.fin 80) = true) ∧
    (sc = .fin 79 → pe = false) ∧
    (sc = .fin 80 → pe = true) ∧
    (∀ i raw, Accepted env i raw ro →
      (JSNum.gt raw (.fin 100) = true → pe = true) ∧
      (JSNum.lt raw (.fin 0) = true → pe = false)) := by
  have h2 : Process.handler env event s = ((Process.handler env event s).1, .ok id t sc ro pe) :=
    Prod.ext rfl h
  obtain ⟨⟨i, raw, hacc, hsc⟩, hpe, r, hget, hst, _, hscore, _, hprize⟩ :=
    handler_ok_persisted env event s _ id t sc ro pe h2
  refine ⟨⟨r, hget, hst, hscore, hprize⟩, by rw [hpe], ?_, ?_, ?_⟩
  · intro h79
    rw [hpe, h79]
    decide
  · intro h80
    rw [hpe, h80]
    decide
  · intro j raw2 hacc2
    have hraw : raw = raw2 := (accepted_unique env i j raw raw2 ro ro hacc hacc2).2
    subst hraw
    have hc := clampSpec_cases raw
    constructor
    · intro hgt
      rw [hpe, hsc, hc.2.2 hgt]
      decide
    · intro hlt
      rw [hpe, hsc, hc.2.1 hlt]
      decide

/-- C5, on two runs: raw score 142 is persisted as 100 with the flag true, and
score 79 is persisted with the flag false. -/
theorem prizeEligible_iff_witness :
    ((∃ r, (Process.handler (Process.exampleEnv (.fin 142)) (.body (some (lit "r1")))
          (exampleStore 0)).1.getItem (lit "r1") 0 = some r ∧
        r.processing_status = some .completed ∧ r.score = some (.fin 100) ∧
        r.prize_eligible = some true) ∧
      (true = true ↔ JSNum.ge (.fin 100) (.fin 80) = true) ∧
      (JSNum.fin 100 = .fin 79 → true = false) ∧
      (JSNum.fin 100 = .fin 80 → true = true) ∧
      (∀ i raw, Accepted (Process.exampleEnv (.fin 142)) i raw (.str (lit "nice")) →
        (JSNum.gt raw (.fin 100) = true → true = true) ∧
        (JSNum.lt raw (.fin 0) = true → true = false))) ∧
    (Process.handler (Process.exampleEnv (.fin 79)) (.body (some (lit "r1")))
        (exampleStore 0)).2 =
      .ok (lit "r1") (lit "it was great") (.fin 79) (.str (lit "nice")) false ∧
    (Process.handler (Process.exampleEnv (.fin 80)) (.body (some (lit "r1")))
        (exampleStore 0)).2 =
      .ok (lit "r1") (lit "it was great") (.fin 80) (.str (lit "nice")) true :=
  ⟨prizeEligible_iff (Process.exampleEnv (.fin 142)) (.body (some (lit "r1"))) (exampleStore 0)
    (lit "r1") (lit "it was great") (.fin 100) (.str (lit "nice")) true (by decide!),
   by decide!, by decide!⟩

/-! ## The writes of a pipeline run -/

theorem getRecord_ok_inv {fault : Option JSError} {s : Store} {id : JSString}
    {record : Record} (h : getRecord fault s id = .ok (some record)) :
    s.getItem id 0 = some record := by
  unfold getRecord at h
  split at h
  · cases h
  · simpa using h

theorem updateStatus_ok_inv {fault : Option JSError} {updated : JSString} {s s1 : Store}
    {id : JSString} {ts : Nat} {st : Status} {m : Option JSString}
    (h : updateStatus fault updated s id ts st m = .ok s1) :
    s1 = s.updateItem id ts (statusAssignments st updated m) := by
  unfold updateStatus at h
  split at h
  · cases h
  · simp only [Except.ok.injEq] at h
    exact h.symm

theorem timestamp_of_getItem {s : Store} {id : JSString} {ts : Nat} {r : Record}
    (h : s.getItem id ts = some r) : r.response_id = id ∧ r.timestamp = ts := by
  have := hasKey_of_find h
  simpa [hasKey] using this

theorem handlerTry_writes (env : Process.Env) (event : Process.Event) (s : Store) :
    (handlerTry env event s).1 = s ∨
    ∃ id, event = .body (some id) ∧ Writes env id s (handlerTry env event s).1 := by
  unfold handlerTry
  split
  · exact Or.inl rfl
  · exact Or.inl rfl
  · rename_i id
    split
    · exact Or.inl rfl
    · split
      · exact Or.inl rfl
      · exact Or.inl rfl
      · rename_i record hget
        have hts := (timestamp_of_getItem (getRecord_ok_inv hget)).2
        split
        · exact Or.inl rfl
        · rename_i s1 hclaim
          have h1 : Writes env id s s1 := by
            rw [updateStatus_ok_inv hclaim, hts]
            exact Writes.status .processing env.claimTime none Writes.none (Or.inl rfl)
          simp only
          split
          · exact Or.inr ⟨id, rfl, h1⟩
          · split
            · exact Or.inr ⟨id, rfl, h1⟩
            · exact Or.inr ⟨id, rfl, h1⟩
            · split
              · exact Or.inr ⟨id, rfl, h1⟩
              · exact Or.inr ⟨id, rfl, h1⟩
              · rename_i grading hgr
                obtain ⟨i, raw, hacc, hsc⟩ := gradeResponse_ok_inv env grading hgr
                split
                · exact Or.inr ⟨id, rfl, h1⟩
                · rename_i s2 hres
                  refine Or.inr ⟨id, rfl, ?_⟩
                  unfold updateResults at hres
                  split at hres
                  · cases hres
                  · simp only [Except.ok.injEq] at hres
                    rw [← hres, hts, hsc]
                    exact Writes.results _ i raw _ _ _ h1 hacc

theorem markFailed_writes (env : Process.Env) (event : Process.Event) (s s1 : Store)
    (e : JSError) (id : JSString) (hev : event = .body (some id)) (h : Writes env id s s1) :
    Writes env id s (markFailed env event s1 e) := by
  subst hev
  unfold markFailed
  simp only
  split
  · exact h
  · split
    · exact h
    · exact h
    · rename_i record hget
      have hts := (timestamp_of_getItem (getRecord_ok_inv hget)).2
      split
      · exact h
      · rename_i s2 hfail
        rw [updateStatus_ok_inv hfail, hts]
        exact Writes.status .failed env.failTime _ h (Or.inr rfl)

theorem markFailed_of_not_body (env : Process.Env) (event : Process.Event) (s : Store)
    (e : JSError) (h : ∀ id, event ≠ .body (some id)) : markFailed env event s e = s := by
  unfold markFailed
  split
  · rfl
  · rfl
  · rename_i id
    exact absurd rfl (h id)

theorem handler_writes (env : Process.Env) (event : Process.Event) (s : Store) :
    (Process.handler env event s).1 = s ∨
    ∃ id, event = .body (some id) ∧ Writes env id s (Process.handler env event s).1 := by
  by_cases hev : ∃ id, event = .body (some id)
  · obtain ⟨id, hid⟩ := hev
    refine Or.inr ⟨id, hid, ?_⟩
    have hT : Writes env id s (handlerTry env event s).1 := by
      rcases handlerTry_writes env event s with h | ⟨id2, hid2, h⟩
      · rw [h]
        exact Writes.none
      · rw [hid] at hid2
        cases hid2
        exact h
    unfold Process.handler
    split
    · rename_i s1 response hres
      rw [hres] at hT
      exact hT
    · rename_i s1 error hres
      rw [hres] at hT
      exact markFailed_writes env event s s1 error id hid hT
  · push_neg at hev
    left
    have hT : (handlerTry env event s).1 = s := by
      rcases handlerTry_writes env event s with h | ⟨id2, hid2, _⟩
      · exact h
      · exact absurd hid2 (hev id2)
    unfold Process.handler
    split
    · rename_i s1 response hres
      rw [hres] at hT
      exact hT
    · rename_i s1 error hres
      rw [hres] at hT
      simp only
      rw [markFailed_of_not_body env event s1 error hev]
      exact hT

theorem writes_getItem_other {env : Process.Env} {id : JSString} {s s2 : Store}
    (h : Writes env id s s2)
    (id2 : JSString) (ts2 : Nat) (hne : ¬ (id2 = id ∧ ts2 = 0)) :
    s2.getItem id2 ts2 = s.getItem id2 ts2 := by
  induction h with
  | none => rfl
  | status st updated m _ _ ih =>
    rw [getItem_updateItem_other _ id 0 _ (statusAssignments_keepsKey st updated m) id2 ts2 hne]
    exact ih
  | results t i raw ro url completed _ _ ih =>
    rw [getItem_updateItem_other _ id 0 _ (resultAssignments_keepsKey _ _ _ _ _ _)
      id2 ts2 hne]
    exact ih

theorem statusAssignments_status (st : Status) (updated : JSString) (m : Option JSString)
    (r : Record) : (statusAssignments st updated m r).processing_status = some st := by
  unfold statusAssignments
  cases m with
  | none => rfl
  | some m =>
    simp only
    split <;> rfl

theorem writes_getItem_same {env : Process.Env} {id : JSString} {s s2 : Store}
    (h : Writes env id s s2) (r : Record)
    (hget : s.getItem id 0 = some r) :
    ∃ r2, s2.getItem id 0 = some r2 ∧
      (r2 = r ∨ r2.processing_status = some .processing ∨
        r2.processing_status = some .completed ∨ r2.processing_status = some .failed) := by
  induction h with
  | none => exact ⟨r, hget, Or.inl rfl⟩
  | status st updated m _ hst ih =>
    obtain ⟨r1, h1, _⟩ := ih
    refine ⟨_, getItem_updateItem_same _ id 0 _ (statusAssignments_keepsKey st updated m) r1 h1,
      Or.inr ?_⟩
    rw [statusAssignments_status]
    rcases hst with h | h
    · exact Or.inl (by rw [h])
    · exact Or.inr (Or.inr (by rw [h]))
  | results t i raw ro url completed _ _ ih =>
    obtain ⟨r1, h1, _⟩ := ih
    exact ⟨_, getItem_updateItem_same _ id 0 _
      (resultAssignments_keepsKey _ _ _ _ _ _) r1 h1, Or.inr (Or.inr (Or.inl rfl))⟩

/-! ## Submission creation -/

theorem submit_store_cases (env : Submit.Env) (event : Submit.Event) (s : Store) :
    (Submit.handler env event s).1 = s ∨
    ∃ name audioFormat audioSize,
      (Submit.handler env event s).1 = s.putItem (dbRecord env name audioFormat audioSize) := by
  unfold Submit.handler
  split
  · exact Or.inl rfl
  · simp only
    split
    · exact Or.inl rfl
    · split
      · split
        · exact Or.inl rfl
        · split
          · exact Or.inr ⟨_, _, _, rfl⟩
          · exact Or.inr ⟨_, _, _, rfl⟩
      · exact Or.inl rfl

theorem putItem_fresh (s : Store) (item : Record)
    (fresh : ∀ r ∈ s, r.response_id ≠ item.response_id) : s.putItem item = s ++ [item] := by
  have hany : s.any (hasKey item.response_id item.timestamp) = false := by
    rw [List.any_eq_false]
    intro r hr hk
    simp only [hasKey, Bool.and_eq_true, decide_eq_true_eq] at hk
    exact fresh r hr hk.1
  simp only [Store.putItem, hany]
  rfl

theorem submit_getItem (env : Submit.Env) (event : Submit.Event) (s : Store)
    (fresh : ∀ r ∈ s, r.response_id ≠ env.randomUUID) (id : JSString) (ts : Nat) (r : Record)
    (hget : s.getItem id ts = some r) :
    (Submit.handler env event s).1.getItem id ts = some r := by
  rcases submit_store_cases env event s with h | ⟨name, audioFormat, audioSize, h⟩
  · rw [h]
    exact hget
  · rw [h, putItem_fresh s _ fresh]
    simp only [Store.getItem] at hget ⊢
    rw [List.find?_append, hget]
    rfl

/-! ## Terminal records -/

theorem exampleEnv_json (q : ℚ) : JsonScores (Process.exampleEnv (.fin q)) := by
  intro i score roast h
  simp only [Process.exampleEnv, Except.ok.injEq, Prod.mk.injEq] at h
  rw [← h.1]
  simp

theorem downloadFails_json (message : JSString) (failFault : Option JSError) :
    JsonScores (downloadFails message failFault) := by
  intro i score roast h
  simp only [downloadFails, Process.exampleEnv, Except.ok.injEq, Prod.mk.injEq] at h
  rw [← h.1]
  simp

/-- C6, as stated, fails: a pipeline run on a record that is already
`completed` claims it again; when the audio download and then the write of the
failed status fail, the record is left with status `processing`. -/
theorem terminal_record_reclaimed :
    ¬ (∀ s s2 : Store, Step s s2 → ∀ id ts r, s.getItem id ts = some r →
        r.terminal = true → ∃ r2, s2.getItem id ts = some r2 ∧ r2.terminal = true) := by
  intro h
  have hstep := Step.run (downloadFails (lit "NoSuchKey") (some ⟨lit "throttled"⟩))
    (.body (some (lit "r1"))) completedStore (downloadFails_json _ _)
  have hbefore : (completedStore.getItem (lit "r1") 0).map Record.terminal = some true := by
    decide!
  have hafter : (((Process.handler (downloadFails (lit "NoSuchKey") (some ⟨lit "throttled"⟩))
      (.body (some (lit "r1"))) completedStore).1.getItem (lit "r1") 0).map
        (fun r => r.processing_status)) = some (some .processing) := by
    decide!
  cases hr : completedStore.getItem (lit "r1") 0 with
  | none =>
    rw [hr] at hbefore
    cases hbefore
  | some r =>
    rw [hr] at hbefore
    simp only [Option.map_some', Option.some.injEq] at hbefore
    obtain ⟨r2, hget2, hterm2⟩ := h _ _ hstep (lit "r1") 0 r hr hbefore
    rw [hget2] at hafter
    simp only [Option.map_some', Option.some.injEq] at hafter
    simp [Record.terminal, hafter] at hterm2

/-- C6, amended: a step leaves every terminal record exactly as it is, unless
the step is a pipeline run for the record's id; such a run leaves the record
`processing`, `completed` or `failed`, never `pending`. -/
theorem terminal_after_step {s s2 : Store} (h : Step s s2) (id : JSString) (ts : Nat)
    (r : Record) (hget : s.getItem id ts = some r) (hterm : r.terminal = true) :
    s2.getItem id ts = some r ∨
    ((∃ env, s2 = (Process.handler env (.body (some id)) s).1) ∧
      ∃ r2, s2.getItem id ts = some r2 ∧
        (r2.processing_status = some .processing ∨ r2.terminal = true)) := by
  cases h with
  | create env event _ fresh => exact Or.inl (submit_getItem env event s fresh id ts r hget)
  | run env event _ _ =>
    rcases handler_writes env event s with hsame | ⟨id2, hev, hw⟩
    · rw [hsame]
      exact Or.inl hget
    · by_cases hkey : id = id2 ∧ ts = 0
      · obtain ⟨hid, hts⟩ := hkey
        subst hid hts
        obtain ⟨r2, hget2, hst⟩ := writes_getItem_same hw r hget
        refine Or.inr ⟨⟨env, by rw [hev]⟩, r2, hget2, ?_⟩
        rcases hst with h1 | h1 | h1 | h1
        · rw [h1]
          exact Or.inr hterm
        · exact Or.inl h1
        · exact Or.inr (by simp [Record.terminal, h1])
        · exact Or.inr (by simp [Record.terminal, h1])
      · rw [writes_getItem_other hw id ts hkey]
        exact Or.inl hget

/-- C6, amended, on two steps from the table with one completed record: a
pipeline run for another id, and a run for the record's own id in which the
download and the write of the failed status fail. -/
theorem terminal_after_step_witness :
    ((Process.handler (Process.exampleEnv (.fin 50)) (.body (some (lit "other")))
        completedStore).1.getItem (lit "r1") 0 = some scoredRecord ∨
      ((∃ env, (Process.handler (Process.exampleEnv (.fin 50)) (.body (some (lit "other")))
            completedStore).1 = (Process.handler env (.body (some (lit "r1"))) completedStore).1) ∧
        ∃ r2, (Process.handler (Process.exampleEnv (.fin 50)) (.body (some (lit "other")))
            completedStore).1.getItem (lit "r1") 0 = some r2 ∧
          (r2.processing_status = some .processing ∨ r2.terminal = true))) ∧
    ((Process.handler (downloadFails (lit "NoSuchKey") (some ⟨lit "throttled"⟩))
        (.body (some (lit "r1"))) completedStore).1.getItem (lit "r1") 0 = some scoredRecord ∨
      ((∃ env, (Process.handler (downloadFails (lit "NoSuchKey") (some ⟨lit "throttled"⟩))
            (.body (some (lit "r1"))) completedStore).1 =
          (Process.handler env (.body (some (lit "r1"))) completedStore).1) ∧
        ∃ r2, (Process.handler (downloadFails (lit "NoSuchKey") (some ⟨lit "throttled"⟩))
            (.body (some (lit "r1"))) completedStore).1.getItem (lit "r1") 0 = some r2 ∧
          (r2.processing_status = some .processing ∨ r2.terminal = true))) :=
  ⟨terminal_after_step
      (Step.run (Process.exampleEnv (.fin 50)) (.body (some (lit "other"))) completedStore
        (exampleEnv_json 50))
      (lit "r1") 0 scoredRecord (by decide!) (by decide!),
   terminal_after_step
      (Step.run (downloadFails (lit "NoSuchKey") (some ⟨lit "throttled"⟩))
        (.body (some (lit "r1"))) completedStore (downloadFails_json _ _))
      (lit "r1") 0 scoredRecord (by decide!) (by decide!)⟩

/-! ## The field invariant -/

theorem exampleStore_reachable : Reachable (exampleStore 0) :=
  Reachable.step Reachable.empty
    (Step.create (exampleSubmitEnv 0)
      (.body (.str (lit " Ada ")) (.str (lit "webm")) (.num (.fin 1000))) []
      (fun _ hr => absurd hr (List.not_mem_nil _)))

theorem completedStore_reachable : Reachable completedStore :=
  Reachable.step exampleStore_reachable
    (Step.run (Process.exampleEnv (.fin 90)) (.body (some (lit "r1"))) (exampleStore 0)
      (exampleEnv_json 90))

theorem failedAfterCompleted_reachable : Reachable failedAfterCompleted :=
  Reachable.step completedStore_reachable
    (Step.run (downloadFails (lit "NoSuchKey") none) (.body (some (lit "r1"))) completedStore
      (downloadFails_json _ _))

/-- C7, as stated, fails: after a submission is created and scored, a second
pipeline run on it whose audio download fails writes the status `failed` and
keeps the four derived fields, so they are present on a record that is not
`completed`. -/
theorem fields_invariant_broken :
    ¬ (∀ s, Reachable s → ∀ r ∈ s, FieldsInvariant r) := by
  intro h
  have h1 := h failedAfterCompleted failedAfterCompleted_reachable
  have h2 : ¬ (∀ r ∈ failedAfterCompleted, FieldsInvariant r) := by decide!
  exact h2 h1

theorem mem_updateItem {s : Store} {id : JSString} {ts : Nat} {f : Record → Record}
    {r2 : Record} (h : r2 ∈ s.updateItem id ts f) :
    r2 ∈ s ∨ (∃ r ∈ s, r2 = f r) ∨ r2 = f { response_id := id, timestamp := ts } := by
  unfold Store.updateItem at h
  split at h
  · rw [List.mem_map] at h
    obtain ⟨r, hr, heq⟩ := h
    split at heq
    · exact Or.inr (Or.inl ⟨r, hr, heq.symm⟩)
    · rw [← heq]
      exact Or.inl hr
  · rw [List.mem_append] at h
    rcases h with h | h
    · exact Or.inl h
    · exact Or.inr (Or.inr (by simpa using h))

theorem mem_putItem {s : Store} {item r2 : Record} (h : r2 ∈ s.putItem item) :
    r2 ∈ s ∨ r2 = item := by
  unfold Store.putItem at h
  split at h
  · rw [List.mem_map] at h
    obtain ⟨r, hr, heq⟩ := h
    split at heq
    · exact Or.inr heq.symm
    · rw [← heq]
      exact Or.inl hr
  · rw [List.mem_append] at h
    rcases h with h | h
    · exact Or.inl h
    · exact Or.inr (by simpa using h)

theorem keptInvariant_blank (id : JSString) (ts : Nat) :
    KeptInvariant { response_id := id, timestamp := ts } := by
  refine ⟨?_, ?_, Or.inr rfl⟩
  · intro h
    cases h
  · intro h
    cases h

theorem keptInvariant_dbRecord (env : Submit.Env) (name audioFormat : JSString)
    (audioSize : JSNum) : KeptInvariant (dbRecord env name audioFormat audioSize) := by
  refine ⟨?_, ?_, Or.inr rfl⟩
  · intro h
    cases h
  · intro _
    exact ⟨rfl, rfl⟩

theorem statusAssignments_results (st : Status) (updated : JSString) (m : Option JSString)
    (r : Record) :
    (statusAssignments st updated m r).hasResults = r.hasResults ∧
    (statusAssignments st updated m r).noResults = r.noResults := by
  unfold statusAssignments
  cases m with
  | none => exact ⟨rfl, rfl⟩
  | some m =>
    simp only
    split <;> exact ⟨rfl, rfl⟩

theorem keptInvariant_status (st : Status) (updated : JSString) (m : Option JSString)
    (hst : st = .processing ∨ st = .failed) (r : Record) (h : KeptInvariant r) :
    KeptInvariant (statusAssignments st updated m r) := by
  obtain ⟨_, _, h3⟩ := h
  have hres := statusAssignments_results st updated m r
  refine ⟨?_, ?_, by rw [hres.1, hres.2]; exact h3⟩
  · intro hc
    rw [statusAssignments_status] at hc
    rcases hst with h | h <;> rw [h] at hc <;> cases hc
  · intro hc
    rw [statusAssignments_status] at hc
    rcases hst with h | h <;> rw [h] at hc <;> cases hc

theorem keptInvariant_results (t : JSString) (sc : JSNum) (ro : JSVal) (url : JSString)
    (pe : Bool) (completed : JSString) (r : Record) :
    KeptInvariant (resultAssignments t sc ro url pe completed r) := by
  refine ⟨fun _ => rfl, ?_, Or.inl rfl⟩
  intro hc
  cases hc

theorem writes_keptInvariant {env : Process.Env} {id : JSString} {s s2 : Store}
    (h : Writes env id s s2)
    (hs : ∀ r ∈ s, KeptInvariant r) : ∀ r ∈ s2, KeptInvariant r := by
  induction h with
  | none => exact hs
  | status st updated m _ hst ih =>
    intro r2 hr2
    rcases mem_updateItem hr2 with h | ⟨r, hr, heq⟩ | heq
    · exact ih r2 h
    · rw [heq]
      exact keptInvariant_status st updated m hst r (ih r hr)
    · rw [heq]
      exact keptInvariant_status st updated m hst _ (keptInvariant_blank id 0)
  | results t i raw ro url completed _ _ ih =>
    intro r2 hr2
    rcases mem_updateItem hr2 with h | ⟨r, hr, heq⟩ | heq
    · exact ih r2 h
    · rw [heq]
      exact keptInvariant_results _ _ _ _ _ _ r
    · rw [heq]
      exact keptInvariant_results _ _ _ _ _ _ _

theorem step_keptInvariant {s s2 : Store} (h : Step s s2) (hs : ∀ r ∈ s, KeptInvariant r) :
    ∀ r ∈ s2, KeptInvariant r := by
  cases h with
  | create env event _ _ =>
    rcases submit_store_cases env event s with h | ⟨name, audioFormat, audioSize, h⟩
    · rw [h]
      exact hs
    · rw [h]
      intro r2 hr2
      rcases mem_putItem hr2 with h2 | h2
      · exact hs r2 h2
      · rw [h2]
        exact keptInvariant_dbRecord env name audioFormat audioSize
  | run env event _ _ =>
    rcases handler_writes env event s with h | ⟨id, _, hw⟩
    · rw [h]
      exact hs
    · exact writes_keptInvariant hw hs

theorem reachable_keptInvariant (s : Store) (h : Reachable s) : ∀ r ∈ s, KeptInvariant r := by
  induction h with
  | empty =>
    intro r hr
    exact absurd hr (List.not_mem_nil _)
  | step _ hstep ih => exact step_keptInvariant hstep ih

/-- C7, amended: in every table reachable from the empty table, every record
with status `completed` has transcript, score, commentary and prizeEligible
present, every record with status `pending` has none of them and no
errorDetail, and the four are present together or absent together. -/
theorem fields_kept_invariant (s : Store) (h : Reachable s) :
    ∀ r ∈ s,
      (r.processing_status = some .completed → r.hasResults = true) ∧
      (r.processing_status = some .pending → r.noResults = true ∧ r.error_message = none) ∧
      (r.hasResults = true ∨ r.noResults = true) :=
  fun r hr => reachable_keptInvariant s h r hr

/-- C7, amended, on the table reached by a creation, a successful run and a
failing second run: its record is `failed` and has the four derived fields. -/
theorem fields_kept_invariant_witness :
    Reachable failedAfterCompleted ∧
    (∀ r ∈ failedAfterCompleted,
      (r.processing_status = some .completed → r.hasResults = true) ∧
      (r.processing_status = some .pending → r.noResults = true ∧ r.error_message = none) ∧
      (r.hasResults = true ∨ r.noResults = true)) ∧
    failedAfterCompleted.map (fun r => (r.processing_status, r.hasResults)) =
      [(some .failed, true)] :=
  ⟨failedAfterCompleted_reachable,
   fields_kept_invariant failedAfterCompleted failedAfterCompleted_reachable, by decide!⟩

/-! ## Stored scores -/

theorem clampSpec_range (raw : JSNum) (h : raw ≠ .nan) :
    ∃ q : ℚ, clampSpec raw = .fin q ∧ 0 ≤ q ∧ q ≤ 100 := by
  cases raw with
  | nan => exact absurd rfl h
  | posInf => exact ⟨100, rfl, by norm_num, le_refl _⟩
  | negInf => exact ⟨0, rfl, le_refl _, by norm_num⟩
  | fin q =>
    simp only [clampSpec, JSNum.lt, JSNum.gt, decide_eq_true_eq]
    by_cases h1 : q < 0
    · exact ⟨0, by simp [h1], le_refl _, by norm_num⟩
    · by_cases h2 : (100 : ℚ) < q
      · exact ⟨100, by simp [h1, h2], by norm_num, le_refl _⟩
      · exact ⟨q, by simp [h1, h2], not_lt.mp h1, not_lt.mp h2⟩

theorem accepted_ne_nan {env : Process.Env} (hjson : JsonScores env) {i : Nat} {raw : JSNum}
    {ro : JSVal} (h : Accepted env i raw ro) : raw ≠ .nan := by
  intro hnan
  subst hnan
  exact hjson i _ _ h.2.2.1 rfl

theorem statusAssignments_score (st : Status) (updated : JSString) (m : Option JSString)
    (r : Record) : (statusAssignments st updated m r).score = r.score := by
  unfold statusAssignments
  cases m with
  | none => rfl
  | some m =>
    simp only
    split <;> rfl

theorem writes_scoreRange {env : Process.Env} (hjson : JsonScores env) {id : JSString}
    {s s2 : Store} (h : Writes env id s s2) (hs : ∀ r ∈ s, ScoreRange r) :
    ∀ r ∈ s2, ScoreRange r := by
  induction h with
  | none => exact hs
  | status st updated m _ _ ih =>
    intro r2 hr2 n hn
    rcases mem_updateItem hr2 with h | ⟨r, hr, heq⟩ | heq
    · exact ih r2 h n hn
    · rw [heq, statusAssignments_score] at hn
      exact ih r hr n hn
    · rw [heq, statusAssignments_score] at hn
      cases hn
  | results t i raw ro url completed _ hacc ih =>
    intro r2 hr2 n hn
    have hrange := clampSpec_range raw (accepted_ne_nan hjson hacc)
    rcases mem_updateItem hr2 with h | ⟨r, hr, heq⟩ | heq
    · exact ih r2 h n hn
    · rw [heq] at hn
      simp only [resultAssignments, Option.some.injEq] at hn
      rw [← hn]
      exact hrange
    · rw [heq] at hn
      simp only [resultAssignments, Option.some.injEq] at hn
      rw [← hn]
      exact hrange

theorem step_scoreRange {s s2 : Store} (h : Step s s2) (hs : ∀ r ∈ s, ScoreRange r) :
    ∀ r ∈ s2, ScoreRange r := by
  cases h with
  | create env event _ _ =>
    rcases submit_store_cases env event s with h | ⟨name, audioFormat, audioSize, h⟩
    · rw [h]
      exact hs
    · rw [h]
      intro r2 hr2
      rcases mem_putItem hr2 with h2 | h2
      · exact hs r2 h2
      · rw [h2]
        intro n hn
        cases hn
  | run env event _ hjson =>
    rcases handler_writes env event s with h | ⟨id, _, hw⟩
    · rw [h]
      exact hs
    · exact writes_scoreRange hjson hw hs

theorem reachable_scoreRange (s : Store) (h : Reachable s) : ∀ r ∈ s, ScoreRange r := by
  induction h with
  | empty =>
    intro r hr
    exact absurd hr (List.not_mem_nil _)
  | step _ hstep ih => exact step_scoreRange hstep ih

/-- The records retrieved from a reachable table satisfy the hypothesis of the
ranking theorem: the score of a completed record is a number. -/
theorem retrieved_scores_numeric (s : Store) (h : Reachable s) (results : List Record)
    (hres : ∀ r ∈ results, r ∈ s) :
    ∀ r ∈ results, isCompleted r = true → scoreOf r ≠ .nan := by
  intro r hr hc
  have hmem := hres r hr
  have hkept := (reachable_keptInvariant s h r hmem).1 (by simpa [isCompleted] using hc)
  simp only [Record.hasResults, Bool.and_eq_true] at hkept
  obtain ⟨n, hn⟩ := Option.isSome_iff_exists.mp hkept.1.1.2
  obtain ⟨q, hq, _⟩ := reachable_scoreRange s h r hmem n hn
  simp [scoreOf, hn, hq]

/-! ## The record fetch -/

/-- C8, evaluated on the code: the table holds the submission `r1`, created by
the submit handler at clock reading 1736935200000, and the scoring trigger for
`r1` responds 404 and writes nothing, because `getRecord` reads the key with
`timestamp: 0`. -/
theorem created_record_not_found :
    (exampleStore 1736935200000).map (fun r => (r.response_id, r.timestamp)) =
      [(lit "r1", 1736935200000)] ∧
    (exampleStore 1736935200000).getItem (lit "r1") 0 = none ∧
    (Process.handler (Process.exampleEnv (.fin 90)) (.body (some (lit "r1")))
        (exampleStore 1736935200000)).2 = .notFound ∧
    (Process.handler (Process.exampleEnv (.fin 90)) (.body (some (lit "r1")))
        (exampleStore 1736935200000)).1 = exampleStore 1736935200000 := by
  decide!

/-! ## Failing pipeline runs -/

theorem handlerTry_error_cause (env : Process.Env) (id : JSString) (s s1 : Store)
    (e : JSError) (h : handlerTry env (.body (some id)) s = (s1, .error e)) :
    env.getFault = some e ∨ env.claimFault = some e ∨ (∃ key, env.downloadAudioFromS3 key = .error e) ∨
    (transcribeAudio env).outcome = .error e ∨ (gradeResponse env).outcome = .error e ∨
    env.resultFault = some e := by
  unfold handlerTry at h
  simp only at h
  split at h
  · cases h
  · split at h
    · rename_i e2 hget
      simp only [Prod.mk.injEq, Except.error.injEq] at h
      left
      unfold getRecord at hget
      split at hget
      · rename_i e3 hf
        simp only [Except.error.injEq] at hget
        rw [hf, hget, h.2]
      · cases hget
    · cases h
    · split at h
      · rename_i e2 hclaim
        simp only [Prod.mk.injEq, Except.error.injEq] at h
        right; left
        unfold updateStatus at hclaim
        split at hclaim
        · rename_i e3 hf
          simp only [Except.error.injEq] at hclaim
          rw [hf, hclaim, h.2]
        · cases hclaim
      · split at h
        · rename_i e2 hd
          simp only [Prod.mk.injEq, Except.error.injEq] at h
          right; right; left
          exact ⟨_, by rw [hd, h.2]⟩
        · split at h
          · rename_i e2 ht
            simp only [Prod.mk.injEq, Except.error.injEq] at h
            right; right; right; left
            rw [ht, h.2]
          · rename_i ht
            exact absurd ht (retryWithBackoff_ne_undefined _)
          · split at h
            · rename_i e2 hg
              simp only [Prod.mk.injEq, Except.error.injEq] at h
              right; right; right; right; left
              rw [hg, h.2]
            · rename_i hg
              exact absurd hg (retryWithBackoff_ne_undefined _)
            · split at h
              · rename_i e2 hres
                simp only [Prod.mk.injEq, Except.error.injEq] at h
                right; right; right; right; right
                unfold updateResults at hres
                split at hres
                · rename_i e3 hf
                  simp only [Except.error.injEq] at hres
                  rw [hf, hres, h.2]
                · cases hres
              · cases h

theorem statusAssignments_failed (updated message : JSString) (r : Record) :
    statusAssignments .failed updated (some message) r = failedRecord updated message r := by
  unfold statusAssignments failedRecord
  cases message with
  | nil => simp [JSVal.truthy]
  | cons c cs => simp [JSVal.truthy]

theorem markFailed_eq (env : Process.Env) (id : JSString) (s1 : Store) (e : JSError)
    (r1 : Record) (hid : id ≠ []) (hget : s1.getItem id 0 = some r1) :
    markFailed env (.body (some id)) s1 e =
      match env.refetchFault, env.failFault with
      | none, none =>
        s1.updateItem id 0 (statusAssignments .failed env.failTime (some e.message))
      | _, _ => s1 := by
  have hts := (timestamp_of_getItem hget).2
  have htruthy : (!(JSVal.str id).truthy) = false := by
    cases id with
    | nil => exact absurd rfl hid
    | cons c cs => rfl
  unfold markFailed
  simp only [htruthy, getRecord, updateStatus]
  cases env.refetchFault with
  | some e1 => rfl
  | none =>
    simp only [hget, hts]
    cases env.failFault with
    | some e2 => rfl
    | none => rfl

theorem handlerTry_error_truthy (env : Process.Env) (id : JSString) (s s1 : Store)
    (e : JSError) (h : handlerTry env (.body (some id)) s = (s1, .error e)) : id ≠ [] := by
  intro hid
  subst hid
  simp [handlerTry, JSVal.truthy] at h

/-- C10, amended: when the `try` block of a pipeline run on an existing record
throws `e` (from the record fetch, the claim write, the audio fetch,
transcription or grading after their retries, or the result write), the
response is 500 with message `e.message`, never 200; when the re-fetch and the
failed-status write succeed, that write changes only the status (to `failed`),
`updated_at`, and `error_message`, which becomes `e.message` when that message
is not empty and is left as it was when it is empty; when either of them fails,
the table is left as the `try` block left it and the response is the same. -/
theorem failed_run_response (env : Process.Env) (id : JSString) (s s1 : Store)
    (record : Record) (e : JSError) (hget : s.getItem id 0 = some record)
    (hfail : handlerTry env (.body (some id)) s = (s1, .error e)) :
    (env.getFault = some e ∨ env.claimFault = some e ∨ (∃ key, env.downloadAudioFromS3 key = .error e) ∨
      (transcribeAudio env).outcome = .error e ∨ (gradeResponse env).outcome = .error e ∨
      env.resultFault = some e) ∧
    (Process.handler env (.body (some id)) s).2 = .failed e.message ∧
    (Process.handler env (.body (some id)) s).2.statusCode = 500 ∧
    ∃ r1, s1.getItem id 0 = some r1 ∧
      (env.refetchFault = none ∧ env.failFault = none →
        (Process.handler env (.body (some id)) s).1.getItem id 0 =
            some (failedRecord env.failTime e.message r1) ∧
          (e.message ≠ [] →
            (failedRecord env.failTime e.message r1).error_message = some e.message)) ∧
      (¬ (env.refetchFault = none ∧ env.failFault = none) →
        (Process.handler env (.body (some id)) s).1 = s1) := by
  have hid := handlerTry_error_truthy env id s s1 e hfail
  have hw : Writes env id s s1 := by
    rcases handlerTry_writes env (.body (some id)) s with h | ⟨id2, hev, h⟩
    · rw [hfail] at h
      simp only at h
      rw [h]
      exact Writes.none
    · simp only [Process.Event.body.injEq, Option.some.injEq] at hev
      subst hev
      rw [hfail] at h
      exact h
  obtain ⟨r1, hget1, _⟩ := writes_getItem_same hw record hget
  have hhandler : Process.handler env (.body (some id)) s =
      (markFailed env (.body (some id)) s1 e, .failed e.message) := by
    unfold Process.handler
    rw [hfail]
  refine ⟨handlerTry_error_cause env id s s1 e hfail, by rw [hhandler], by rw [hhandler]; rfl,
    r1, hget1, ?_, ?_⟩
  · rintro ⟨h1, h2⟩
    rw [hhandler, markFailed_eq env id s1 e r1 hid hget1, h1, h2]
    simp only
    rw [getItem_updateItem_same s1 id 0 _ (statusAssignments_keepsKey _ _ _) r1 hget1,
      statusAssignments_failed]
    refine ⟨rfl, ?_⟩
    intro hne
    simp [failedRecord, hne]
  · intro hne
    rw [hhandler, markFailed_eq env id s1 e r1 hid hget1]
    simp only
    cases h1 : env.refetchFault with
    | some e1 => rfl
    | none =>
      cases h2 : env.failFault with
      | some e2 => rfl
      | none => exact absurd ⟨h1, h2⟩ hne

/-- C10, as stated, fails: when the audio fetch fails with an exception whose
message is the empty string, the failed-status write sets the status to
`failed` and writes no `error_message`, so the record's errorDetail is absent
rather than equal to the message. -/
theorem empty_message_not_written :
    ¬ (∀ (env : Process.Env) (id : JSString) (s s1 : Store) (record : Record) (e : JSError),
        s.getItem id 0 = some record →
        handlerTry env (.body (some id)) s = (s1, .error e) →
        env.refetchFault = none → env.failFault = none →
        ∃ r2, (Process.handler env (.body (some id)) s).1.getItem id 0 = some r2 ∧
          r2.processing_status = some .failed ∧ r2.error_message = some e.message) := by
  intro h
  have hget : (exampleStore 0).getItem (lit "r1") 0 = some (pendingRecord 0) := by decide!
  have htry : handlerTry (downloadFails [] none) (.body (some (lit "r1"))) (exampleStore 0) =
      ((handlerTry (downloadFails [] none) (.body (some (lit "r1"))) (exampleStore 0)).1,
        .error ⟨[]⟩) := Prod.ext rfl (by decide!)
  obtain ⟨r2, h1, _, h3⟩ := h (downloadFails [] none) (lit "r1") (exampleStore 0) _
    (pendingRecord 0) ⟨[]⟩ hget htry rfl rfl
  have hnone : ((Process.handler (downloadFails [] none) (.body (some (lit "r1")))
      (exampleStore 0)).1.getItem (lit "r1") 0).map (fun r => r.error_message) =
        some none := by decide!
  rw [h1] at hnone
  simp only [Option.map_some', Option.some.injEq] at hnone
  rw [h3] at hnone
  cases hnone

/-- C10, amended, on a run on a pending record whose audio fetch fails with
message `NoSuchKey`: the response is 500 with that message and the record
becomes `failed` with that `error_message`. -/
theorem failed_run_response_witness :
    ((downloadFails (lit "NoSuchKey") none).getFault = some ⟨lit "NoSuchKey"⟩ ∨
      (downloadFails (lit "NoSuchKey") none).claimFault = some ⟨lit "NoSuchKey"⟩ ∨
      (∃ key, (downloadFails (lit "NoSuchKey") none).downloadAudioFromS3 key = .error ⟨lit "NoSuchKey"⟩) ∨
      (transcribeAudio (downloadFails (lit "NoSuchKey") none)).outcome =
        .error ⟨lit "NoSuchKey"⟩ ∨
      (gradeResponse (downloadFails (lit "NoSuchKey") none)).outcome =
        .error ⟨lit "NoSuchKey"⟩ ∨
      (downloadFails (lit "NoSuchKey") none).resultFault = some ⟨lit "NoSuchKey"⟩) ∧
    (Process.handler (downloadFails (lit "NoSuchKey") none) (.body (some (lit "r1")))
      (exampleStore 0)).2 = .failed (lit "NoSuchKey") ∧
    (Process.handler (downloadFails (lit "NoSuchKey") none) (.body (some (lit "r1")))
      (exampleStore 0)).2.statusCode = 500 ∧
    ∃ r1, claimedStore.getItem (lit "r1") 0 = some r1 ∧
      ((downloadFails (lit "NoSuchKey") none).refetchFault = none ∧
          (downloadFails (lit "NoSuchKey") none).failFault = none →
        (Process.handler (downloadFails (lit "NoSuchKey") none) (.body (some (lit "r1")))
            (exampleStore 0)).1.getItem (lit "r1") 0 =
          some (failedRecord (downloadFails (lit "NoSuchKey") none).failTime
            (lit "NoSuchKey") r1) ∧
        (lit "NoSuchKey" ≠ [] →
          (failedRecord (downloadFails (lit "NoSuchKey") none).failTime
            (lit "NoSuchKey") r1).error_message = some (lit "NoSuchKey"))) ∧
      (¬ ((downloadFails (lit "NoSuchKey") none).refetchFault = none ∧
          (downloadFails (lit "NoSuchKey") none).failFault = none) →
        (Process.handler (downloadFails (lit "NoSuchKey") none) (.body (some (lit "r1")))
          (exampleStore 0)).1 = claimedStore) :=
  failed_run_response (downloadFails (lit "NoSuchKey") none) (lit "r1") (exampleStore 0)
    claimedStore (pendingRecord 0) ⟨lit "NoSuchKey"⟩ (by decide!) (Prod.ext rfl (by decide!))

/-! ## Average score

The sum and the quotient are computed on the rational values of the scores. For
integer scores in `[0, 100]` this is what the double arithmetic of the handler
gives: the sum is exact, and the rounded quotient `sum / n` lies on the same side
of every half-integer as the exact one unless `1 / (2 * n)` is below half a unit
in the last place of a double near 100, that is, unless `n >= 2 ^ 46`, more than
an array holds. -/

theorem sumScores_fin (ks : List Nat) (a : Nat) (l : List Record)
    (h : l.map scoreOf = ks.map (fun k : Nat => JSNum.fin (k : ℚ))) :
    sumScores (.fin (a : ℚ)) l = .fin ((a + ks.sum : Nat) : ℚ) := by
  induction l generalizing ks a with
  | nil =>
    cases ks with
    | nil => simp [sumScores]
    | cons k ks => simp at h
  | cons r rs ih =>
    cases ks with
    | nil => simp at h
    | cons k ks =>
      simp only [List.map_cons, List.cons.injEq] at h
      have hstep : sumScores (.fin (a : ℚ)) (r :: rs) = sumScores (.fin ((a + k : Nat) : ℚ)) rs := by
        simp only [sumScores, List.foldl_cons, h.1, JSNum.add]
        push_cast
        rfl
      rw [hstep, ih ks (a + k) h.2, List.sum_cons, Nat.add_assoc]

theorem natOf_fin (k : Nat) : natOf (.fin (k : ℚ)) = k := by
  simp [natOf]

theorem map_scoreOf_of_perm (ks : List Nat) (l l2 : List Record) (hperm : l2.Perm l)
    (h : l.map scoreOf = ks.map (fun k : Nat => JSNum.fin (k : ℚ))) :
    ∃ ks2 : List Nat, ks2.Perm ks ∧ l2.map scoreOf = ks2.map (fun k : Nat => JSNum.fin (k : ℚ)) := by
  refine ⟨l2.map (fun r => natOf (scoreOf r)), ?_, ?_⟩
  · have h1 : (l2.map (fun r => natOf (scoreOf r))).Perm (l.map (fun r => natOf (scoreOf r))) :=
      hperm.map _
    have h2 : l.map (fun r => natOf (scoreOf r)) = ks := by
      have h3 := congrArg (List.map natOf) h
      rw [List.map_map, List.map_map] at h3
      have h4 : ks.map (natOf ∘ fun k : Nat => JSNum.fin (k : ℚ)) = ks := by
        conv_rhs => rw [← List.map_id ks]
        apply List.map_congr_left
        intro k _
        exact natOf_fin k
      rw [h4] at h3
      exact h3
    rw [h2] at h1
    exact h1
  · rw [List.map_map]
    apply List.map_congr_left
    intro r hr
    have hmem : scoreOf r ∈ l.map scoreOf := List.mem_map.mpr ⟨r, hperm.subset hr, rfl⟩
    rw [h] at hmem
    obtain ⟨k, _, hk⟩ := List.mem_map.mp hmem
    simp only [Function.comp, ← hk, natOf_fin]

theorem round_mean (S n : Nat) (hn : 0 < n) :
    JSNum.round (JSNum.divLength (.fin (S : ℚ)) n) = .fin (((2 * S + n) / (2 * n) : Nat) : ℚ) := by
  simp only [JSNum.divLength, JSNum.round, JSNum.fin.injEq]
  have hq : (S : ℚ) / (n : ℚ) + 1 / 2 = ((2 * S + n : Nat) : ℚ) / ((2 * n : Nat) : ℚ) := by
    have hn0 : (n : ℚ) ≠ 0 := by exact_mod_cast hn.ne'
    push_cast
    field_simp
    ring
  rw [hq, Rat.floor_natCast_div_natCast]
  norm_cast

theorem averageScore_eq (results : List Record) (limit : Option Int) (d u : JSString)
    (scores : List Nat)
    (hscores : (results.filter isCompleted).map scoreOf =
      scores.map (fun k : Nat => JSNum.fin (k : ℚ))) :
    (buildBody results limit d u).averageScore = .fin ((roundedMean scores : Nat) : ℚ) ∧
    (buildBody results limit d u).totalParticipants = scores.length := by
  have hperm := sort_perm compareFn (results.filter isCompleted)
  obtain ⟨ks2, hks, hmap⟩ := map_scoreOf_of_perm scores _ _ hperm hscores
  have hlen : (sortedCompleted results).length = scores.length := by
    have h1 := congrArg List.length hscores
    simp only [List.length_map] at h1
    rw [← h1]
    exact hperm.length_eq
  have hsum : sumScores (.fin ((0 : Nat) : ℚ)) (sortedCompleted results) =
      .fin ((0 + ks2.sum : Nat) : ℚ) := sumScores_fin ks2 0 _ hmap
  rw [Nat.zero_add, hks.sum_eq, Nat.cast_zero] at hsum
  refine ⟨?_, hlen⟩
  have havg : (buildBody results limit d u).averageScore =
      if (sortedCompleted results).length > 0 then
        JSNum.round (JSNum.divLength (sumScores (.fin 0) (sortedCompleted results))
          (sortedCompleted results).length)
      else .fin 0 := rfl
  rw [havg, hlen, hsum]
  unfold roundedMean
  by_cases h0 : scores.length = 0
  · simp [h0]
  · have hpos : 0 < scores.length := Nat.pos_of_ne_zero h0
    rw [if_pos hpos, if_neg h0, round_mean _ _ hpos]

/-- C12: when the completed records retrieved have the integer scores `scores`,
each in `[0, 100]`, the handler returns no error, `totalParticipants` is their
number and `averageScore` is their rounded mean: 0 when there is none, with an
empty leaderboard, and otherwise `floor((2 * sum + n) / (2 * n))`. -/
theorem average_score (env : Leaderboard.Env) (event : Leaderboard.Event)
    (results : List Record) (scores : List Nat)
    (hq : queryLeaderboard env (sessionDateOf env event) (limitOf event) = .ok results)
    (hscores : (results.filter isCompleted).map scoreOf =
      scores.map (fun k : Nat => JSNum.fin (k : ℚ)))
    (_hrange : ∀ k ∈ scores, k ≤ 100) :
    ∃ body, Leaderboard.handler env event = .ok body ∧
      body.totalParticipants = scores.length ∧
      body.averageScore = .fin ((roundedMean scores : Nat) : ℚ) ∧
      (scores = [] →
        body.averageScore = .fin 0 ∧ body.leaderboard = [] ∧ body.totalParticipants = 0) ∧
      (scores ≠ [] →
        body.averageScore =
          .fin (((2 * scores.sum + scores.length) / (2 * scores.length) : Nat) : ℚ)) := by
  have havg := averageScore_eq results (limitOf event) (sessionDateOf env event)
    env.lastUpdated scores hscores
  refine ⟨buildBody results (limitOf event) (sessionDateOf env event) env.lastUpdated, ?_,
    havg.2, havg.1, ?_, ?_⟩
  · simp only [Leaderboard.handler, hq]
  · intro hnil
    subst hnil
    have hfilter : results.filter isCompleted = [] := by
      simpa using hscores
    refine ⟨by rw [havg.1]; simp [roundedMean], ?_, by rw [havg.2]; rfl⟩
    simp only [buildBody, sortedCompleted, hfilter]
    cases limitOf event with
    | none => rfl
    | some k =>
      simp only [slice0, Leaderboard.sort, List.foldr_nil, List.mapIdx_nil, List.take_nil]
      split <;> rfl
  · intro hne
    rw [havg.1]
    have h0 : scores.length ≠ 0 := by
      intro h
      exact hne (List.length_eq_zero.mp h)
    simp [roundedMean, h0]

/-- C12, on the specification's example: completed scores 80, 90, 100 give
the average 90 (and 80, 81, whose mean is 80.5, give 81). -/
theorem average_score_witness :
    roundedMean [80, 90, 100] = 90 ∧ roundedMean [80, 81] = 81 ∧ roundedMean [] = 0 ∧
    ∃ body, Leaderboard.handler (Leaderboard.returning (recordsWithScores [80, 90, 100]))
        { sessionDate := none, limit := none } = .ok body ∧
      body.totalParticipants = [80, 90, 100].length ∧
      body.averageScore = .fin ((roundedMean [80, 90, 100] : Nat) : ℚ) ∧
      (([80, 90, 100] : List Nat) = [] →
        body.averageScore = .fin 0 ∧ body.leaderboard = [] ∧ body.totalParticipants = 0) ∧
      (([80, 90, 100] : List Nat) ≠ [] →
        body.averageScore =
          .fin (((2 * [80, 90, 100].sum + [80, 90, 100].length) /
            (2 * [80, 90, 100].length) : Nat) : ℚ)) :=
  ⟨by decide, by decide, by decide,
   average_score (Leaderboard.returning (recordsWithScores [80, 90, 100]))
    { sessionDate := none, limit := none } (recordsWithScores [80, 90, 100]) [80, 90, 100]
    rfl (by decide!) (by decide)⟩

/-! ## Truncation to the limit -/

theorem entryScore_toEntry (i : Nat) (r : Record) : entryScore (toEntry i r) = scoreOf r := rfl

theorem rankedList_length (results : List Record) :
    (rankedList results).length = (results.filter isCompleted).length := by
  simp only [rankedList, List.length_mapIdx]
  exact (sort_perm compareFn (results.filter isCompleted)).length_eq

theorem rankedList_ranks (results : List Record) :
    (rankedList results).map (fun e => e.rank) =
      List.range' 1 (results.filter isCompleted).length := by
  apply List.ext_getElem
  · rw [List.length_map, rankedList_length, List.length_range']
  · intro i h1 h2
    rw [List.getElem_map, List.getElem_range']
    simp only [rankedList, List.getElem_mapIdx, toEntry]
    omega

theorem rankedList_descending (results : List Record)
    (hscore : ∀ r ∈ results, isCompleted r = true → scoreOf r ≠ .nan) :
    (rankedList results).Pairwise (fun e e2 => (entryScore e).ge (entryScore e2) = true) := by
  have hd : Descending (sortedCompleted results) := by
    apply sort_descending
    intro r hr
    have := List.mem_filter.mp hr
    exact hscore r this.1 this.2
  rw [List.pairwise_iff_getElem]
  intro i j hi hj hij
  simp only [rankedList, List.getElem_mapIdx, entryScore_toEntry]
  simp only [rankedList, List.length_mapIdx] at hi hj
  exact (List.pairwise_iff_getElem.mp hd) i j hi hj hij

theorem take_min_length {α : Type} (l : List α) (m : Nat) :
    l.take m = l.take (min m l.length) := by
  by_cases h : m ≤ l.length
  · rw [Nat.min_eq_left h]
  · have h2 : l.length ≤ m := by omega
    rw [Nat.min_eq_right h2, List.take_of_length_le h2, List.take_of_length_le (le_refl _)]

theorem range'_take (m n : Nat) : (List.range' 1 n).take m = List.range' 1 (min m n) := by
  apply List.ext_getElem
  · simp [List.length_take, List.length_range']
  · intro i h1 h2
    rw [List.getElem_take, List.getElem_range', List.getElem_range']

/-- C13: for every list of retrieved records whose completed records carry a
score that is a number, and every integer limit `k >= 0` (100 when the query
parameter is absent), the returned leaderboard is the first `min k n` entries of
the full ranked list of the `n` completed records: it has at most `k` entries,
its ranks are `1..min k n`, and no entry left out has a higher score than an
entry returned. -/
theorem leaderboard_truncated (env : Leaderboard.Env) (event : Leaderboard.Event)
    (results : List Record) (k : Int)
    (hq : queryLeaderboard env (sessionDateOf env event) (limitOf event) = .ok results)
    (hl : limitOf event = some k) (hk : 0 ≤ k)
    (hscore : ∀ r ∈ results, isCompleted r = true → scoreOf r ≠ .nan) :
    (∀ d, limitOf { sessionDate := d, limit := none } = some 100) ∧
    ∃ body, Leaderboard.handler env event = .ok body ∧
      body.leaderboard =
        (rankedList results).take (min k.toNat (results.filter isCompleted).length) ∧
      body.leaderboard.length = min k.toNat (results.filter isCompleted).length ∧
      (body.leaderboard.length : Int) ≤ k ∧
      body.leaderboard.map (fun e => e.rank) =
        List.range' 1 (min k.toNat (results.filter isCompleted).length) ∧
      (∀ e ∈ body.leaderboard, ∀ e2 ∈ (rankedList results).drop k.toNat,
        (entryScore e).ge (entryScore e2) = true ∧ (entryScore e).lt (entryScore e2) = false) := by
  refine ⟨fun _ => rfl, ?_⟩
  have hneg : ¬ k < 0 := by omega
  have hlb : (buildBody results (limitOf event) (sessionDateOf env event)
      env.lastUpdated).leaderboard = (rankedList results).take k.toNat := by
    simp only [buildBody, hl, slice0, if_neg hneg]
    rfl
  have hmin : (rankedList results).take k.toNat =
      (rankedList results).take (min k.toNat (results.filter isCompleted).length) := by
    rw [take_min_length, rankedList_length]
  refine ⟨buildBody results (limitOf event) (sessionDateOf env event) env.lastUpdated, ?_, ?_, ?_,
    ?_, ?_, ?_⟩
  · simp only [Leaderboard.handler, hq]
  · rw [hlb, hmin]
  · rw [hlb, List.length_take, rankedList_length]
  · rw [hlb, List.length_take]
    have : min k.toNat (rankedList results).length ≤ k.toNat := Nat.min_le_left _ _
    omega
  · rw [hlb, List.map_take, rankedList_ranks, range'_take]
  · intro e he e2 he2
    rw [hlb] at he
    have hp := rankedList_descending results hscore
    rw [← List.take_append_drop k.toNat (rankedList results)] at hp
    have hge := (List.pairwise_append.mp hp).2.2 e he e2 he2
    refine ⟨hge, ?_⟩
    cases h1 : entryScore e <;> cases h2 : entryScore e2 <;>
      simp_all [JSNum.ge, JSNum.le, JSNum.lt]

/-- C13, on the example: with `limit=2` the leaderboard is the two best of the
four completed records, ranks 1 and 2. -/
theorem leaderboard_truncated_witness :
    (∀ d, limitOf { sessionDate := d, limit := none } = some 100) ∧
    ∃ body, Leaderboard.handler exampleQueryEnv { sessionDate := none, limit := some (lit "2") } =
        .ok body ∧
      body.leaderboard =
        (rankedList exampleResults).take (min (2 : Int).toNat
          (exampleResults.filter isCompleted).length) ∧
      body.leaderboard.length = min (2 : Int).toNat (exampleResults.filter isCompleted).length ∧
      (body.leaderboard.length : Int) ≤ 2 ∧
      body.leaderboard.map (fun e => e.rank) =
        List.range' 1 (min (2 : Int).toNat (exampleResults.filter isCompleted).length) ∧
      (∀ e ∈ body.leaderboard, ∀ e2 ∈ (rankedList exampleResults).drop (2 : Int).toNat,
        (entryScore e).ge (entryScore e2) = true ∧ (entryScore e).lt (entryScore e2) = false) :=
  leaderboard_truncated exampleQueryEnv { sessionDate := none, limit := some (lit "2") }
    exampleResults 2 rfl (by decide) (by decide) (by decide!)

/-! ## Statistics and the limit -/

/-- C11, as stated, fails: the query is issued with `Limit: limit * 2`, so with
`limit=1` only two of the three completed submissions of the day are retrieved;
`top3` then has two entries and `totalParticipants` is 2, while with the default
limit they have three entries and 3. -/
theorem top3_depends_on_limit :
    ¬ (∀ (s : Store) (today lastUpdated : JSString) (e1 e2 : Leaderboard.Event) (b1 b2 : Body),
        e1.sessionDate = e2.sessionDate →
        Leaderboard.handler (tableEnv s today lastUpdated) e1 = .ok b1 →
        Leaderboard.handler (tableEnv s today lastUpdated) e2 = .ok b2 →
        b1.top3 = b2.top3 ∧ b1.totalParticipants = b2.totalParticipants) := by
  intro h
  have h1 : ((Leaderboard.handler (exampleTableEnv threeCompleted)
      { sessionDate := none, limit := some (lit "1") }).body?).map
        (fun b => (b.top3.length, b.totalParticipants)) = some (2, 2) := by decide!
  have h2 : ((Leaderboard.handler (exampleTableEnv threeCompleted)
      { sessionDate := none, limit := none }).body?).map
        (fun b => (b.top3.length, b.totalParticipants)) = some (3, 3) := by decide!
  cases hb1 : Leaderboard.handler (exampleTableEnv threeCompleted)
      { sessionDate := none, limit := some (lit "1") } with
  | error m =>
    rw [hb1] at h1
    cases h1
  | ok b1 =>
    cases hb2 : Leaderboard.handler (exampleTableEnv threeCompleted)
        { sessionDate := none, limit := none } with
    | error m =>
      rw [hb2] at h2
      cases h2
    | ok b2 =>
      rw [hb1] at h1
      rw [hb2] at h2
      simp only [Response.body?, Option.map_some', Option.some.injEq, Prod.mk.injEq] at h1 h2
      have := (h threeCompleted (lit "2025-01-15") (lit "2025-01-15T10:00:00.000Z")
        { sessionDate := none, limit := some (lit "1") }
        { sessionDate := none, limit := none } b1 b2 rfl hb1 hb2).2
      omega

theorem buildBody_stats (results : List Record) (limit : Option Int) (d u : JSString) :
    (buildBody results limit d u).top3 = (rankedList results).take 3 ∧
    (buildBody results limit d u).totalParticipants = (results.filter isCompleted).length := by
  refine ⟨rfl, ?_⟩
  simp only [buildBody]
  exact (sort_perm compareFn (results.filter isCompleted)).length_eq

theorem queryTable_all (s : Store) (d : JSString) (k : Int) (hk : 0 < k)
    (hlen : ((s.filter (fun r => decide (r.session_date = some d))).length : Int) ≤ k) :
    queryTable s d (some k) =
      .ok (Leaderboard.sort compareFn (s.filter (fun r => decide (r.session_date = some d)))) := by
  have hk2 : ¬ k ≤ 0 := by omega
  simp only [queryTable, if_neg hk2]
  rw [List.take_of_length_le]
  rw [(sort_perm compareFn _).length_eq]
  omega

/-- C11, amended: `top3` and `totalParticipants` are computed from the
completed records among those that the query retrieved and are not affected by
the truncation of the leaderboard: `top3` is the first 3 entries of their
ranking, also when `limit < 3`, and `totalParticipants` is their number. The
query is issued with `Limit: limit * 2`; when that is at least the number of
submissions of the session date in the table, all of them are retrieved and
`totalParticipants` is the number of all completed submissions of the date. -/
theorem top3_of_retrieved :
    (∀ (env : Leaderboard.Env) (event : Leaderboard.Event) (results : List Record),
      queryLeaderboard env (sessionDateOf env event) (limitOf event) = .ok results →
      ∃ body, Leaderboard.handler env event = .ok body ∧
        body.top3 = (rankedList results).take 3 ∧
        body.totalParticipants = (results.filter isCompleted).length ∧
        ∀ limit2, (buildBody results limit2 body.sessionDate body.lastUpdated).top3 = body.top3 ∧
          (buildBody results limit2 body.sessionDate body.lastUpdated).totalParticipants =
            body.totalParticipants) ∧
    (∀ (s : Store) (today lastUpdated : JSString) (event : Leaderboard.Event) (k : Int),
      limitOf event = some k → 0 < k →
      ((s.filter (fun r =>
        decide (r.session_date = some (sessionDateOf (tableEnv s today lastUpdated) event)))).length : Int) ≤ k * 2 →
      ∃ body, Leaderboard.handler (tableEnv s today lastUpdated) event = .ok body ∧
        body.top3 = (rankedList (Leaderboard.sort compareFn (s.filter (fun r =>
          decide (r.session_date = some (sessionDateOf (tableEnv s today lastUpdated) event)))))).take 3 ∧
        body.totalParticipants = ((s.filter (fun r =>
          decide (r.session_date = some (sessionDateOf (tableEnv s today lastUpdated) event)))).filter
            isCompleted).length) := by
  constructor
  · intro env event results hq
    refine ⟨buildBody results (limitOf event) (sessionDateOf env event) env.lastUpdated, ?_,
      (buildBody_stats _ _ _ _).1, (buildBody_stats _ _ _ _).2, ?_⟩
    · simp only [Leaderboard.handler, hq]
    · intro limit2
      exact ⟨rfl, rfl⟩
  · intro s today lastUpdated event k hl hk hlen
    have hq : queryLeaderboard (tableEnv s today lastUpdated) (sessionDateOf (tableEnv s today lastUpdated) event) (limitOf event) =
        .ok (Leaderboard.sort compareFn (s.filter (fun r =>
          decide (r.session_date = some (sessionDateOf (tableEnv s today lastUpdated) event))))) := by
      simp only [queryLeaderboard, hl, Option.map_some']
      exact queryTable_all s _ (k * 2) (by omega) hlen
    refine ⟨buildBody _ (limitOf event) (sessionDateOf (tableEnv s today lastUpdated) event)
      (tableEnv s today lastUpdated).lastUpdated, ?_, (buildBody_stats _ _ _ _).1, ?_⟩
    · simp only [Leaderboard.handler, hq]
    · rw [(buildBody_stats _ _ _ _).2]
      exact ((sort_perm compareFn _).filter isCompleted).length_eq

/-- C11, amended, on the table with three completed submissions: with
`limit=2` the query asks for four records and retrieves the three, so `top3` has
the three entries and `totalParticipants` is 3 although the leaderboard is cut
to two. -/
theorem top3_of_retrieved_witness :
    (∃ body, Leaderboard.handler (exampleTableEnv threeCompleted)
        { sessionDate := none, limit := some (lit "2") } = .ok body ∧
      body.top3 = (rankedList (Leaderboard.sort compareFn (threeCompleted.filter (fun r =>
        decide (r.session_date = some (sessionDateOf (exampleTableEnv threeCompleted)
          { sessionDate := none, limit := some (lit "2") })))))).take 3 ∧
      body.totalParticipants = ((threeCompleted.filter (fun r =>
        decide (r.session_date = some (sessionDateOf (exampleTableEnv threeCompleted)
          { sessionDate := none, limit := some (lit "2") })))).filter isCompleted).length) ∧
    ((Leaderboard.handler (exampleTableEnv threeCompleted)
        { sessionDate := none, limit := some (lit "2") }).body?).map
      (fun b => (b.leaderboard.length, b.top3.length, b.totalParticipants)) = some (2, 3, 3) :=
  ⟨top3_of_retrieved.2 threeCompleted (lit "2025-01-15") (lit "2025-01-15T10:00:00.000Z")
    { sessionDate := none, limit := some (lit "2") } 2
    (by decide) (by decide) (by decide), by decide!⟩

/-! ## The record of an accepted submission -/

theorem validateInput_valid_rules (name audioFormat audioSize : JSVal)
    (h : (validateInput name audioFormat audioSize).valid = true) :
    NameRule name ∧ FormatRule audioFormat ∧ SizeRule audioSize := by
  rw [validateInput_valid, validateInput_errors] at h
  simp only [List.append_eq_nil] at h
  obtain ⟨⟨h1, h2⟩, h3⟩ := h
  have hn := nameStep_spec [] name
  have hf := formatStep_spec [] audioFormat
  have hs := sizeStep_spec [] audioSize
  simp only [List.nil_append] at hn hf hs
  refine ⟨?_, ?_, ?_⟩
  · by_contra hc
    obtain ⟨m, _, hm⟩ := hn.2 hc
    rw [hm] at h1
    cases h1
  · by_contra hc
    obtain ⟨m, _, hm⟩ := hf.2 hc
    rw [hm] at h2
    cases h2
  · by_contra hc
    obtain ⟨m, _, hm⟩ := hs.2 hc
    rw [hm] at h3
    cases h3

theorem getItem_putItem_same (s : Store) (item : Record) :
    (s.putItem item).getItem item.response_id item.timestamp = some item := by
  have hkey : hasKey item.response_id item.timestamp item = true := by
    simp [hasKey]
  unfold Store.putItem Store.getItem
  split
  · rename_i hany
    induction s with
    | nil => simp at hany
    | cons x xs ih =>
      simp only [List.map_cons, List.find?_cons]
      by_cases hx : hasKey item.response_id item.timestamp x = true
      · simp only [hx, if_true, hkey]
      · have hx2 : hasKey item.response_id item.timestamp x = false := by simpa using hx
        simp only [hx2, Bool.false_eq_true, if_false]
        apply ih
        simpa [List.any_cons, hx2] using hany
  · rename_i hany
    have hnone : s.find? (hasKey item.response_id item.timestamp) = none := by
      rw [List.find?_eq_none]
      intro x hx hk
      exact hany (List.any_eq_true.mpr ⟨x, hx, hk⟩)
    rw [List.find?_append, hnone]
    simp [List.find?_cons, hkey]

theorem handler_accepted (env : Submit.Env) (n f : JSString) (sz : JSNum) (s : Store)
    (hvalid : (validateInput (.str n) (.str f) (.num sz)).valid = true)
    (hput : env.putFault = none) :
    (Submit.handler env (.body (.str n) (.str f) (.num sz)) s).1 =
        s.putItem (dbRecord env n f sz) ∧
    ∀ responseId uploadUrl expiresIn s3Key,
      (Submit.handler env (.body (.str n) (.str f) (.num sz)) s).2 =
        .ok responseId uploadUrl expiresIn s3Key →
      responseId = env.randomUUID ∧
      s3Key = beforeT (env.toISOString env.nowDate) ++ lit "/" ++ env.randomUUID ++ lit "." ++ f := by
  unfold Submit.handler
  simp only [hvalid, hput, Bool.not_true, Bool.false_eq_true, if_false]
  cases generatePresignedUrl env
      (beforeT (env.toISOString env.nowDate) ++ lit "/" ++ env.randomUUID ++ lit "." ++ f) f with
  | error e =>
    refine ⟨rfl, ?_⟩
    intro responseId uploadUrl expiresIn s3Key h
    cases h
  | ok url =>
    refine ⟨rfl, ?_⟩
    intro responseId uploadUrl expiresIn s3Key h
    simp only [Submit.Response.ok.injEq] at h
    exact ⟨h.1.symm, h.2.2.2.symm⟩

/-- C14, as stated, fails: the format `MP4` is accepted by the validator and
the record is created with `audio_format` equal to `MP4`, as submitted, which is
none of the enumerated values. -/
theorem stored_format_not_normalized :
    ¬ (∀ (env : Submit.Env) (name audioFormat audioSize : JSVal) (s : Store),
        (validateInput name audioFormat audioSize).valid = true → env.putFault = none →
        ∃ r, (Submit.handler env (.body name audioFormat audioSize) s).1.getItem
            env.randomUUID env.now = some r ∧
          ∃ a ∈ ALLOWED_AUDIO_FORMATS, r.audio_format = some a) := by
  intro h
  obtain ⟨r, hget, a, ha, hfmt⟩ := h (exampleSubmitEnv 1736935200000) (.str (lit " Ada "))
    (.str (lit "MP4")) (.num (.fin 1000)) [] (by decide!) rfl
  have hstored : ((Submit.handler (exampleSubmitEnv 1736935200000)
      (.body (.str (lit " Ada ")) (.str (lit "MP4")) (.num (.fin 1000))) []).1.getItem
        (exampleSubmitEnv 1736935200000).randomUUID (exampleSubmitEnv 1736935200000).now).map
          (fun r => r.audio_format) = some (some (lit "MP4")) := by decide!
  rw [hget] at hstored
  simp only [Option.map_some', Option.some.injEq] at hstored
  rw [hfmt] at hstored
  simp only [Option.some.injEq] at hstored
  rw [hstored] at ha
  revert ha
  decide

/-- C14, amended: for every input accepted by the validator (and a successful
write), the record created by the submit handler has `participant_name` equal to
the trimmed name, of 1 to 50 characters, and `audio_format` equal to the format
as submitted, whose lower-case form is one of `mp4`, `webm`, `wav`, `m4a`, `aac`;
the object key returned is `sessionDate/responseId.audioFormat` with that stored
session date, id and format. -/
theorem accepted_record (env : Submit.Env) (name audioFormat audioSize : JSVal) (s : Store)
    (hvalid : (validateInput name audioFormat audioSize).valid = true)
    (hput : env.putFault = none) :
    ∃ n f r, name = .str n ∧ audioFormat = .str f ∧
      (Submit.handler env (.body name audioFormat audioSize) s).1.getItem
        env.randomUUID env.now = some r ∧
      r.processing_status = some .pending ∧
      r.participant_name = some (trim n) ∧ 1 ≤ (trim n).length ∧ (trim n).length ≤ 50 ∧
      r.audio_format = some f ∧ toLowerCase f ∈ ALLOWED_AUDIO_FORMATS ∧
      ∀ responseId uploadUrl expiresIn s3Key,
        (Submit.handler env (.body name audioFormat audioSize) s).2 =
          .ok responseId uploadUrl expiresIn s3Key →
        responseId = r.response_id ∧
        s3Key = tmpl r.session_date ++ lit "/" ++ responseId ++ lit "." ++ tmpl r.audio_format := by
  obtain ⟨⟨n, hn, _, hn1, hn2⟩, ⟨f, hf, a, ha, hfa⟩, ⟨sz, hsz, _⟩⟩ :=
    validateInput_valid_rules name audioFormat audioSize hvalid
  subst hn hf hsz
  have hacc := handler_accepted env n f sz s hvalid hput
  refine ⟨n, f, dbRecord env n f sz, rfl, rfl, ?_, rfl, rfl, hn1, hn2, rfl, ?_, ?_⟩
  · rw [hacc.1]
    exact getItem_putItem_same s (dbRecord env n f sz)
  · rw [hfa, toLowerCase_allowed a ha]
    exact ha
  · intro responseId uploadUrl expiresIn s3Key h
    obtain ⟨h1, h2⟩ := hacc.2 responseId uploadUrl expiresIn s3Key h
    refine ⟨h1, ?_⟩
    rw [h2, h1]
    rfl

/-- C14, amended, on the submission of the name ` Ada ` with the format `MP4`:
the record stores `Ada` and `MP4`. -/
theorem accepted_record_witness :
    (∃ n f r, JSVal.str (lit " Ada ") = .str n ∧ JSVal.str (lit "MP4") = .str f ∧
      (Submit.handler (exampleSubmitEnv 1736935200000)
        (.body (.str (lit " Ada ")) (.str (lit "MP4")) (.num (.fin 1000))) []).1.getItem
          (exampleSubmitEnv 1736935200000).randomUUID (exampleSubmitEnv 1736935200000).now =
        some r ∧
      r.processing_status = some .pending ∧
      r.participant_name = some (trim n) ∧ 1 ≤ (trim n).length ∧ (trim n).length ≤ 50 ∧
      r.audio_format = some f ∧ toLowerCase f ∈ ALLOWED_AUDIO_FORMATS ∧
      ∀ responseId uploadUrl expiresIn s3Key,
        (Submit.handler (exampleSubmitEnv 1736935200000)
          (.body (.str (lit " Ada ")) (.str (lit "MP4")) (.num (.fin 1000))) []).2 =
            .ok responseId uploadUrl expiresIn s3Key →
        responseId = r.response_id ∧
        s3Key = tmpl r.session_date ++ lit "/" ++ responseId ++ lit "." ++ tmpl r.audio_format) ∧
    (Submit.handler (exampleSubmitEnv 1736935200000)
      (.body (.str (lit " Ada ")) (.str (lit "MP4")) (.num (.fin 1000))) []).2 =
        .ok (lit "r1") (lit "https://bucket/2025-01-15/r1.MP4") 300 (lit "2025-01-15/r1.MP4") ∧
    trim (lit " Ada ") = lit "Ada" :=
  ⟨accepted_record (exampleSubmitEnv 1736935200000) (.str (lit " Ada ")) (.str (lit "MP4"))
    (.num (.fin 1000)) [] (by decide!) rfl, by decide!, by decide⟩

/-! ## The persisted score -/

theorem clampSpec_int (z : Int) :
    ∃ k : Nat, k ≤ 100 ∧ clampSpec (.fin (z : ℚ)) = .fin (k : ℚ) := by
  simp only [clampSpec, JSNum.lt, JSNum.gt, decide_eq_true_eq]
  by_cases h1 : (z : ℚ) < 0
  · exact ⟨0, by omega, by simp [h1]⟩
  · by_cases h2 : (100 : ℚ) < (z : ℚ)
    · exact ⟨100, le_refl _, by simp [h1, h2]⟩
    · have hz0 : 0 ≤ z := by
        have : (0 : ℚ) ≤ (z : ℚ) := not_lt.mp h1
        exact_mod_cast this
      have hz1 : z ≤ 100 := by
        have : (z : ℚ) ≤ 100 := not_lt.mp h2
        exact_mod_cast this
      refine ⟨z.toNat, by omega, ?_⟩
      simp only [h1, h2, if_false, JSNum.fin.injEq]
      have hcast : ((z.toNat : Int) : ℚ) = (z : ℚ) := by rw [Int.toNat_of_nonneg hz0]
      rw [← hcast]
      norm_cast

/-- C15, as stated, fails: the grading response with score 85.5 is accepted and
the score persisted on the completed record is 85.5, which is not an integer;
the score is clamped and never rounded. -/
theorem persisted_score_not_integer :
    ¬ (∀ (env : Process.Env) (event : Process.Event) (s : Store) (id t : JSString) (sc : JSNum)
        (ro : JSVal) (pe : Bool), JsonScores env →
        (Process.handler env event s).2 = .ok id t sc ro pe →
        ∃ r, (Process.handler env event s).1.getItem id 0 = some r ∧
          ∃ k : Nat, k ≤ 100 ∧ r.score = some (.fin (k : ℚ))) := by
  intro h
  obtain ⟨r, hget, k, _, hk⟩ := h (Process.exampleEnv (.fin (171 / 2))) (.body (some (lit "r1")))
    (exampleStore 0) (lit "r1") (lit "it was great") (.fin (171 / 2)) (.str (lit "nice")) true
    (exampleEnv_json _) (by decide!)
  have hstored : ((Process.handler (Process.exampleEnv (.fin (171 / 2)))
      (.body (some (lit "r1"))) (exampleStore 0)).1.getItem (lit "r1") 0).map
        (fun r => r.score) = some (some (.fin (171 / 2))) := by decide!
  rw [hget] at hstored
  simp only [Option.map_some', Option.some.injEq] at hstored
  rw [hk] at hstored
  simp only [Option.some.injEq, JSNum.fin.injEq] at hstored
  have h2 : ((2 * k : Nat) : ℚ) = ((171 : Nat) : ℚ) := by
    push_cast
    rw [hstored]
    norm_num
  have h3 : 2 * k = 171 := by exact_mod_cast h2
  omega

/-- C15, amended: for every grading response that `gradeResponse` accepts, the
score persisted on the transition into `completed`, which is the score of the
response, is a number in `[0, 100]`; it is an integer whenever the raw score of
the grading response is an integer. -/
theorem persisted_score_range (env : Process.Env) (hjson : JsonScores env)
    (event : Process.Event) (s : Store) (id t : JSString) (sc : JSNum) (ro : JSVal) (pe : Bool)
    (h : (Process.handler env event s).2 = .ok id t sc ro pe) :
    ∃ r q, (Process.handler env event s).1.getItem id 0 = some r ∧
      r.processing_status = some .completed ∧ r.score = some (.fin q) ∧ sc = .fin q ∧
      0 ≤ q ∧ q ≤ 100 ∧
      ∀ i raw, Accepted env i raw ro → (∃ z : Int, raw = .fin (z : ℚ)) →
        ∃ k : Nat, k ≤ 100 ∧ q = (k : ℚ) := by
  have h2 : Process.handler env event s = ((Process.handler env event s).1, .ok id t sc ro pe) :=
    Prod.ext rfl h
  obtain ⟨⟨i, raw, hacc, hsc⟩, _, r, hget, hst, _, hscore, _, _⟩ :=
    handler_ok_persisted env event s _ id t sc ro pe h2
  obtain ⟨q, hq, hq0, hq1⟩ := clampSpec_range raw (accepted_ne_nan hjson hacc)
  refine ⟨r, q, hget, hst, by rw [hscore, hsc, hq], by rw [hsc, hq], hq0, hq1, ?_⟩
  intro j raw2 hacc2 hint
  have hraw : raw = raw2 := (accepted_unique env i j raw raw2 ro ro hacc hacc2).2
  subst hraw
  obtain ⟨z, hz⟩ := hint
  obtain ⟨k, hk, hkq⟩ := clampSpec_int z
  rw [← hz, hq] at hkq
  simp only [JSNum.fin.injEq] at hkq
  exact ⟨k, hk, hkq⟩

/-- C15, amended, on the run whose grading response has score 85.5: the score
persisted is 85.5, in `[0, 100]`. -/
theorem persisted_score_range_witness :
    (∃ r q, (Process.handler (Process.exampleEnv (.fin (171 / 2))) (.body (some (lit "r1")))
          (exampleStore 0)).1.getItem (lit "r1") 0 = some r ∧
        r.processing_status = some .completed ∧ r.score = some (.fin q) ∧
        JSNum.fin (171 / 2) = .fin q ∧ 0 ≤ q ∧ q ≤ 100 ∧
        ∀ i raw, Accepted (Process.exampleEnv (.fin (171 / 2))) i raw (.str (lit "nice")) →
          (∃ z : Int, raw = .fin (z : ℚ)) → ∃ k : Nat, k ≤ 100 ∧ q = (k : ℚ)) ∧
    (Process.handler (Process.exampleEnv (.fin 90)) (.body (some (lit "r1")))
        (exampleStore 0)).2 =
      .ok (lit "r1") (lit "it was great") (.fin 90) (.str (lit "nice")) true :=
  ⟨persisted_score_range (Process.exampleEnv (.fin (171 / 2))) (exampleEnv_json _)
    (.body (some (lit "r1"))) (exampleStore 0) (lit "r1") (lit "it was great") (.fin (171 / 2))
    (.str (lit "nice")) true (by decide!), by decide!⟩

/-! ## Frontend and backend name rules -/

theorem validateName_valid_iff (name : JSVal) :
    (Frontend.validateName name).valid = true ↔ validateNameStep [] name = [] := by
  cases name with
  | str s =>
    unfold Frontend.validateName validateNameStep
    simp only [Frontend.MIN_NAME_LENGTH, Frontend.MAX_NAME_LENGTH, Submit.MIN_NAME_LENGTH,
      Submit.MAX_NAME_LENGTH]
    split
    · simp
    · split
      · simp
      · split
        · simp
        · simp
  | _ => simp [Frontend.validateName, validateNameStep]

theorem validateName_value (s : JSString)
    (h : (Frontend.validateName (.str s)).valid = true) :
    (Frontend.validateName (.str s)).value = some (trim s) := by
  unfold Frontend.validateName at h ⊢
  simp only at h ⊢
  split
  · rename_i h1
    rw [if_pos h1] at h
    cases h
  · rename_i h1
    rw [if_neg h1] at h
    split
    · rename_i h2
      rw [if_pos h2] at h
      cases h
    · rename_i h2
      rw [if_neg h2] at h
      split
      · rename_i h3
        rw [if_pos h3] at h
        cases h
      · rfl

/-- C16: for every value `name`, the frontend `validateName` returns
`valid = true` exactly when the name block of the backend `validateInput` adds
no violation, that is, exactly when the error list of `validateInput` holds the
format and size violations only; when valid, the value returned is
`name.trim()`, which is the `participant_name` of the record that the submit
handler creates. -/
theorem validateName_agrees (name : JSVal) :
    ((Frontend.validateName name).valid = true ↔
      ∀ errors, validateNameStep errors name = errors) ∧
    (∀ audioFormat audioSize, (Frontend.validateName name).valid = true ↔
      (validateInput name audioFormat audioSize).errors =
        validateFormatStep [] audioFormat ++ validateSizeStep [] audioSize) ∧
    ((Frontend.validateName name).valid = true →
      ∃ s, name = .str s ∧ (Frontend.validateName name).value = some (trim s)) ∧
    (∀ (env : Submit.Env) audioFormat audioSize (st : Store),
      (validateInput name audioFormat audioSize).valid = true → env.putFault = none →
      (Frontend.validateName name).valid = true ∧
      ∃ r, (Submit.handler env (.body name audioFormat audioSize) st).1.getItem
          env.randomUUID env.now = some r ∧
        r.participant_name = (Frontend.validateName name).value) := by
  have hiff := validateName_valid_iff name
  refine ⟨?_, ?_, ?_, ?_⟩
  · rw [hiff]
    constructor
    · intro h errors
      rw [nameStep_append, h, List.append_nil]
    · intro h
      exact h []
  · intro audioFormat audioSize
    rw [validateInput_errors, hiff]
    constructor
    · intro h
      rw [h, List.nil_append]
    · intro h
      have hlen := congrArg List.length h
      simp only [List.length_append] at hlen
      exact List.length_eq_zero.mp (by omega)
  · intro hv
    cases name with
    | str s => exact ⟨s, rfl, validateName_value s hv⟩
    | _ => simp [Frontend.validateName] at hv
  · intro env audioFormat audioSize st hvalid hput
    obtain ⟨⟨n, hn, _, _, _⟩, ⟨f, hf, _⟩, ⟨sz, hsz, _⟩⟩ :=
      validateInput_valid_rules name audioFormat audioSize hvalid
    subst hn hf hsz
    have hv : (Frontend.validateName (.str n)).valid = true := by
      rw [validateName_valid_iff]
      have herr : (validateInput (.str n) (.str f) (.num sz)).errors = [] :=
        (validateInput_valid _ _ _).mp hvalid
      rw [validateInput_errors] at herr
      simp only [List.append_eq_nil] at herr
      exact herr.1.1
    refine ⟨hv, dbRecord env n f sz, ?_, ?_⟩
    · rw [(handler_accepted env n f sz st hvalid hput).1]
      exact getItem_putItem_same st (dbRecord env n f sz)
    · rw [validateName_value n hv]
      rfl

/-- C16, on three names: ` Ada ` is valid for both with value `Ada`, a name
of blanks and a name that is not a string are invalid for both. -/
theorem validateName_agrees_witness :
    (((Frontend.validateName (.str (lit " Ada "))).valid = true ↔
        ∀ errors, validateNameStep errors (.str (lit " Ada ")) = errors) ∧
      Frontend.validateName (.str (lit " Ada ")) =
        { valid := true, error := none, value := some (lit "Ada") }) ∧
    ((Frontend.validateName (.str (lit "   "))).valid = false ∧
      validateNameStep [] (.str (lit "   ")) = [lit "Name must be at least 1 character"]) ∧
    ((Frontend.validateName (.num (.fin 7))).valid = false ∧
      validateNameStep [] (.num (.fin 7)) = [lit "Name is required and must be a string"]) :=
  ⟨⟨(validateName_agrees (.str (lit " Ada "))).1, by decide⟩, by decide, by decide⟩

end ConferenceBoss
